import Mathlib

/-!
MFRC522 SPI register transport (`src/MFRC522_spi.cpp`).

A shallow embedding of the five member functions of `MFRC522_SPI`:
the two `PCD_WriteRegister` overloads, the two `PCD_ReadRegister` overloads
and `PCD_Init`.

* The host platform (SPI bus, GPIO, delay) is an explicit environment `Env`:
  the byte a transfer returns and the level a pin reads back may depend on
  everything that happened before, so a theorem quantified over `Env` holds
  for every bus behaviour.
* Every platform call is appended to `World.trace` in program order.
* `byte* values` is an address into a flat byte memory `World.mem`;
  `values[i]` is the cell `values + i`.  Every cell the code reads or writes
  is appended to `World.accessLog`.
* C `byte` values are natural numbers reduced `% 256` wherever the C code
  converts to `byte` (parameters, assignments, `index++`, `count--`).
-/

namespace MFRC522_SPI

/-! ## Platform model -/

/-- Logic level of a GPIO pin (`LOW` / `HIGH` of `Arduino.h`). -/
inductive Level where
  | LOW
  | HIGH
deriving DecidableEq, Repr

/-- Pin direction argument of `pinMode`. -/
inductive PinMode where
  | INPUT
  | OUTPUT
deriving DecidableEq, Repr

/-- One call into the host platform, with its arguments and (for `transfer`
and `digitalRead`) the value it returned. -/
inductive Event where
  | spiBegin
  | beginTransaction (settings : Nat)
  | endTransaction
  | transfer (out : Nat) (rx : Nat)
  | pinMode (pin : Nat) (mode : PinMode)
  | digitalWrite (pin : Nat) (level : Level)
  | digitalRead (pin : Nat) (level : Level)
  | delay (ms : Nat)
deriving DecidableEq, Repr

/-- Behaviour of the outside world: what the bus answers to a transferred
byte and what a pin reads back, each as a function of the history so far. -/
structure Env where
  spiTransfer : List Event → Nat → Nat
  pinRead : List Event → Nat → Level

/-- Program-visible state: the log of platform calls, the byte memory that
`byte*` arguments point into, and the log of memory cells touched. -/
structure World where
  trace : List Event
  mem : Nat → Nat
  accessLog : List Nat

/-- The data members of an `MFRC522_SPI` object. -/
structure Device where
  _chipSelectPin : Nat
  _resetPowerDownPin : Nat
  _spiSettings : Nat

/-- Append one platform call to the trace. -/
def emit (e : Event) (s : World) : World :=
  { s with trace := s.trace ++ [e] }

/-- Call of `_spiClass->begin()`. -/
def spiBegin (s : World) : World := emit Event.spiBegin s

/-- Call of `_spiClass->beginTransaction(settings)`. -/
def beginTransaction (settings : Nat) (s : World) : World :=
  emit (Event.beginTransaction settings) s

/-- Call of `_spiClass->endTransaction()`. -/
def endTransaction (s : World) : World := emit Event.endTransaction s

/-- Call of `_spiClass->transfer(data)`: the argument is converted to `uint8_t`, the
bus answers, and the answer is a `uint8_t`. -/
def transfer (env : Env) (data : Nat) (s : World) : Nat × World :=
  let out := data % 256
  let rx := env.spiTransfer s.trace out % 256
  (rx, emit (Event.transfer out rx) s)

/-- Call of `pinMode(pin, mode)`. -/
def pinMode (pin : Nat) (mode : PinMode) (s : World) : World :=
  emit (Event.pinMode pin mode) s

/-- Call of `digitalWrite(pin, level)`. -/
def digitalWrite (pin : Nat) (level : Level) (s : World) : World :=
  emit (Event.digitalWrite pin level) s

/-- Call of `digitalRead(pin)`. -/
def digitalRead (env : Env) (pin : Nat) (s : World) : Level × World :=
  let l := env.pinRead s.trace pin
  (l, emit (Event.digitalRead pin l) s)

/-- Call of `delay(ms)`. -/
def delay (ms : Nat) (s : World) : World := emit (Event.delay ms) s

/-- Read the byte at address `a` (an rvalue use of `values[i]`). -/
def load (a : Nat) (s : World) : Nat × World :=
  (s.mem a % 256, { s with accessLog := s.accessLog ++ [a] })

/-- Write byte `v` at address `a` (an assignment to `values[i]`). -/
def store (a : Nat) (v : Nat) (s : World) : World :=
  { s with mem := Function.update s.mem a (v % 256), accessLog := s.accessLog ++ [a] }

/-! ## The member functions -/

/-- Single-register write, `PCD_WriteRegister(reg, value)` (source lines 14-23). -/
def PCD_WriteRegister (env : Env) (d : Device) (reg value : Nat) (s : World) : World :=
  let value := value % 256
  let s := beginTransaction d._spiSettings s
  let s := digitalWrite d._chipSelectPin Level.LOW s
  let s := (transfer env (reg <<< 1) s).2
  let s := (transfer env value s).2
  let s := digitalWrite d._chipSelectPin Level.HIGH s
  endTransaction s

/-- The `for (byte index = 0; index < count; index++)` loop of the block
write, entered at `index`.  The argument `hc` records that `count` is a
`byte`; it is what makes the loop terminate (`index++` never wraps below
`count`). -/
def writeLoop (env : Env) (values count : Nat) (hc : count < 256) (index : Nat) (s : World) :
    World :=
  if index < count then
    let v := load (values + index) s
    let s := (transfer env v.1 v.2).2
    writeLoop env values count hc ((index + 1) % 256) s
  else s
termination_by count - index
decreasing_by omega

/-- Block write, `PCD_WriteRegister(reg, count, values)` (source lines 29-41). -/
def PCD_WriteRegister_count (env : Env) (d : Device) (reg count values : Nat) (s : World) :
    World :=
  let s := beginTransaction d._spiSettings s
  let s := digitalWrite d._chipSelectPin Level.LOW s
  let s := (transfer env (reg <<< 1) s).2
  let s := writeLoop env values (count % 256) (Nat.mod_lt _ (by decide)) 0 s
  let s := digitalWrite d._chipSelectPin Level.HIGH s
  endTransaction s

/-- Single-register read, `PCD_ReadRegister(reg)` (source lines 47-57). -/
def PCD_ReadRegister (env : Env) (d : Device) (reg : Nat) (s : World) : Nat × World :=
  let s := beginTransaction d._spiSettings s
  let s := digitalWrite d._chipSelectPin Level.LOW s
  let s := (transfer env (0x80 ||| (reg <<< 1)) s).2
  let r := transfer env 0 s
  let value := r.1
  let s := digitalWrite d._chipSelectPin Level.HIGH r.2
  let s := endTransaction s
  (value, s)

/-- The expression `(values[0] & ~mask) | (value & mask)`, evaluated in `int`
as C does after integer promotion. -/
def mergeBits (old value mask : Nat) : Int :=
  Int.lor (Int.land (old : Int) (Int.lnot (mask : Int))) (Int.land (value : Int) (mask : Int))

/-- Conversion of an `int` to `byte`. -/
def toByte (i : Int) : Nat := (i % 256).toNat

/-- The `while (index < count)` loop of the block read, entered at `index`;
returns the final `index`.  The argument `hc` records that `count` is a
`byte`; it is what makes the loop terminate. -/
def readLoop (env : Env) (address values count : Nat) (hc : count < 256) (index : Nat)
    (s : World) : Nat × World :=
  if index < count then
    let r := transfer env address s
    let s := store (values + index) r.1 r.2
    readLoop env address values count hc ((index + 1) % 256) s
  else (index, s)
termination_by count - index
decreasing_by omega

/-- The `if (rxAlign) { ... }` block of the block read; returns the new
`index`. -/
def readAligned (env : Env) (address values rxAlign index : Nat) (s : World) : Nat × World :=
  if rxAlign ≠ 0 then
    let mask := ((0xFF <<< rxAlign) &&& 0xFF) % 256
    let r := transfer env address s
    let value := r.1
    let old := load (values + 0) r.2
    let s := store (values + 0) (toByte (mergeBits old.1 value mask)) old.2
    ((index + 1) % 256, s)
  else (index, s)

/-- Block read, `PCD_ReadRegister(reg, count, values, rxAlign)` (source lines 63-94). -/
def PCD_ReadRegister_count (env : Env) (d : Device) (reg count values rxAlign : Nat)
    (s : World) : World :=
  let count := count % 256
  let rxAlign := rxAlign % 256
  if count = 0 then s
  else
    let address := (0x80 ||| (reg <<< 1)) % 256
    let index := 0
    let s := beginTransaction d._spiSettings s
    let s := digitalWrite d._chipSelectPin Level.LOW s
    -- `count--` on a `byte`: subtraction of 1 modulo 256
    let count := (count + 255) % 256
    let s := (transfer env address s).2
    let a := readAligned env address values rxAlign index s
    let l := readLoop env address values count (Nat.mod_lt _ (by decide)) a.1 a.2
    let r := transfer env 0 l.2
    let s := store (values + l.1) r.1 r.2
    let s := digitalWrite d._chipSelectPin Level.HIGH s
    endTransaction s

/-- Initialisation, `PCD_Init()` (source lines 96-116).  `UNUSED_PIN` is declared in a header
that is not part of the sources at hand, so it is a parameter. -/
def PCD_Init (env : Env) (UNUSED_PIN : Nat) (d : Device) (s : World) : Bool × World :=
  let s := spiBegin s
  let s := pinMode d._chipSelectPin PinMode.OUTPUT s
  let s := digitalWrite d._chipSelectPin Level.HIGH s
  if d._resetPowerDownPin ≠ UNUSED_PIN then
    let s := pinMode d._resetPowerDownPin PinMode.OUTPUT s
    let r := digitalRead env d._resetPowerDownPin s
    if r.1 = Level.LOW then
      let s := digitalWrite d._resetPowerDownPin Level.HIGH r.2
      let s := delay 50 s
      (true, s)
    else (false, r.2)
  else (false, s)

/-! ## Observations on a run -/

/-- The platform calls made between world `s` and the later world `s1`. -/
def callEvents (s s1 : World) : List Event := s1.trace.drop s.trace.length

/-- The memory cells touched between world `s` and the later world `s1`. -/
def callAccesses (s s1 : World) : List Nat := s1.accessLog.drop s.accessLog.length

/-- The byte sent by a bus transfer; `none` for any other platform call. -/
def payloadOf : Event → Option Nat
  | Event.transfer out _ => some out
  | _ => none

/-- The byte returned by a bus transfer; `none` for any other platform call. -/
def responseOf : Event → Option Nat
  | Event.transfer _ rx => some rx
  | _ => none

/-- Payloads of the bus transfers among `evs`, in order. -/
def payloads (evs : List Event) : List Nat := evs.filterMap payloadOf

/-- Bytes returned by the bus transfers among `evs`, in order. -/
def responses (evs : List Event) : List Nat := evs.filterMap responseOf

/-- What the bus discipline tracks: the level of the chip-select line and
whether an SPI transaction is open. -/
structure BusState where
  cs : Level
  inTransaction : Bool
deriving DecidableEq, Repr

/-- One step of the bus-discipline monitor for chip-select pin `csPin`: a
transfer is accepted only while chip-select is `LOW` inside an open
transaction; the other calls update the tracked state. -/
def stepBus (csPin : Nat) (b : BusState) : Event → Option BusState
  | Event.beginTransaction _ => some { b with inTransaction := true }
  | Event.endTransaction => some { b with inTransaction := false }
  | Event.digitalWrite p l => if p = csPin then some { b with cs := l } else some b
  | Event.transfer _ _ =>
      if b.cs = Level.LOW ∧ b.inTransaction = true then some b else none
  | _ => some b

/-- Run the monitor over a list of platform calls; `none` as soon as a
transfer happens with chip-select `HIGH` or outside a transaction. -/
def replay (csPin : Nat) : BusState → List Event → Option BusState
  | b, [] => some b
  | b, e :: es =>
    match stepBus csPin b e with
    | some b1 => replay csPin b1 es
    | none => none

/-- The idle bus: chip-select `HIGH`, no transaction open. -/
def idle : BusState := { cs := Level.HIGH, inTransaction := false }

/-- A call of one of the four register operations, with its arguments. -/
inductive Op where
  | writeRegister (reg value : Nat)
  | writeRegisterCount (reg count values : Nat)
  | readRegister (reg : Nat)
  | readRegisterCount (reg count values rxAlign : Nat)
deriving DecidableEq, Repr

/-- Perform one register operation. -/
def runOp (env : Env) (d : Device) : Op → World → World
  | Op.writeRegister reg value, s => PCD_WriteRegister env d reg value s
  | Op.writeRegisterCount reg count values, s => PCD_WriteRegister_count env d reg count values s
  | Op.readRegister reg, s => (PCD_ReadRegister env d reg s).2
  | Op.readRegisterCount reg count values rxAlign, s =>
      PCD_ReadRegister_count env d reg count values rxAlign s

/-- Perform a sequence of register operations, first to last. -/
def runOps (env : Env) (d : Device) : List Op → World → World
  | [], s => s
  | op :: ops, s => runOps env d ops (runOp env d op s)

/-- The platform calls made by transferring the bytes `ps` one after another
on a bus whose history so far is `tr`: every answer is the byte `env` returns
for that payload given everything that happened before it. -/
def exchange (env : Env) : List Event → List Nat → List Event
  | _, [] => []
  | tr, p :: ps =>
    Event.transfer p (env.spiTransfer tr p % 256) ::
      exchange env (tr ++ [Event.transfer p (env.spiTransfer tr p % 256)]) ps

/-! ## A concrete platform for worked examples -/

/-- A bus whose answer depends on the history and on the byte sent, and a
reset pin that reads back `LOW`. -/
def demoEnv : Env :=
  { spiTransfer := fun tr out => 16 * tr.length + out % 16 + 1
    pinRead := fun _ _ => Level.LOW }

/-- Chip-select on pin 10, reset on pin 9. -/
def demoDevice : Device :=
  { _chipSelectPin := 10, _resetPowerDownPin := 9, _spiSettings := 0 }

/-- An empty history and a memory whose cell `a` holds `(0x55 + a) % 256`. -/
def demoWorld : World :=
  { trace := [], mem := fun a => (0x55 + a) % 256, accessLog := [] }

/-! ## Basic facts about the primitives -/

@[simp] theorem emit_trace (e : Event) (s : World) : (emit e s).trace = s.trace ++ [e] := rfl
@[simp] theorem emit_mem (e : Event) (s : World) : (emit e s).mem = s.mem := rfl
@[simp] theorem emit_accessLog (e : Event) (s : World) : (emit e s).accessLog = s.accessLog := rfl

@[simp] theorem transfer_fst (env : Env) (p : Nat) (s : World) :
    (transfer env p s).1 = env.spiTransfer s.trace (p % 256) % 256 := rfl
@[simp] theorem transfer_trace (env : Env) (p : Nat) (s : World) :
    (transfer env p s).2.trace
      = s.trace ++ [Event.transfer (p % 256) (env.spiTransfer s.trace (p % 256) % 256)] := rfl
@[simp] theorem transfer_mem (env : Env) (p : Nat) (s : World) :
    (transfer env p s).2.mem = s.mem := rfl
@[simp] theorem transfer_accessLog (env : Env) (p : Nat) (s : World) :
    (transfer env p s).2.accessLog = s.accessLog := rfl

@[simp] theorem load_fst (a : Nat) (s : World) : (load a s).1 = s.mem a % 256 := rfl
@[simp] theorem load_trace (a : Nat) (s : World) : (load a s).2.trace = s.trace := rfl
@[simp] theorem load_mem (a : Nat) (s : World) : (load a s).2.mem = s.mem := rfl
@[simp] theorem load_accessLog (a : Nat) (s : World) :
    (load a s).2.accessLog = s.accessLog ++ [a] := rfl

@[simp] theorem store_trace (a v : Nat) (s : World) : (store a v s).trace = s.trace := rfl
@[simp] theorem store_mem (a v : Nat) (s : World) :
    (store a v s).mem = Function.update s.mem a (v % 256) := rfl
@[simp] theorem store_accessLog (a v : Nat) (s : World) :
    (store a v s).accessLog = s.accessLog ++ [a] := rfl

@[simp] theorem spiBegin_trace (s : World) :
    (spiBegin s).trace = s.trace ++ [Event.spiBegin] := rfl
@[simp] theorem spiBegin_mem (s : World) : (spiBegin s).mem = s.mem := rfl
@[simp] theorem spiBegin_accessLog (s : World) :
    (spiBegin s).accessLog = s.accessLog := rfl

@[simp] theorem beginTransaction_trace (st : Nat) (s : World) :
    (beginTransaction st s).trace = s.trace ++ [Event.beginTransaction st] := rfl
@[simp] theorem beginTransaction_mem (st : Nat) (s : World) : (beginTransaction st s).mem = s.mem := rfl
@[simp] theorem beginTransaction_accessLog (st : Nat) (s : World) :
    (beginTransaction st s).accessLog = s.accessLog := rfl

@[simp] theorem endTransaction_trace (s : World) :
    (endTransaction s).trace = s.trace ++ [Event.endTransaction] := rfl
@[simp] theorem endTransaction_mem (s : World) : (endTransaction s).mem = s.mem := rfl
@[simp] theorem endTransaction_accessLog (s : World) :
    (endTransaction s).accessLog = s.accessLog := rfl

@[simp] theorem pinMode_trace (p : Nat) (m : PinMode) (s : World) :
    (pinMode p m s).trace = s.trace ++ [Event.pinMode p m] := rfl
@[simp] theorem pinMode_mem (p : Nat) (m : PinMode) (s : World) : (pinMode p m s).mem = s.mem := rfl
@[simp] theorem pinMode_accessLog (p : Nat) (m : PinMode) (s : World) :
    (pinMode p m s).accessLog = s.accessLog := rfl

@[simp] theorem digitalWrite_trace (p : Nat) (l : Level) (s : World) :
    (digitalWrite p l s).trace = s.trace ++ [Event.digitalWrite p l] := rfl
@[simp] theorem digitalWrite_mem (p : Nat) (l : Level) (s : World) : (digitalWrite p l s).mem = s.mem := rfl
@[simp] theorem digitalWrite_accessLog (p : Nat) (l : Level) (s : World) :
    (digitalWrite p l s).accessLog = s.accessLog := rfl

@[simp] theorem delay_trace (ms : Nat) (s : World) :
    (delay ms s).trace = s.trace ++ [Event.delay ms] := rfl
@[simp] theorem delay_mem (ms : Nat) (s : World) : (delay ms s).mem = s.mem := rfl
@[simp] theorem delay_accessLog (ms : Nat) (s : World) :
    (delay ms s).accessLog = s.accessLog := rfl

@[simp] theorem digitalRead_fst (env : Env) (p : Nat) (s : World) :
    (digitalRead env p s).1 = env.pinRead s.trace p := rfl
@[simp] theorem digitalRead_trace (env : Env) (p : Nat) (s : World) :
    (digitalRead env p s).2.trace = s.trace ++ [Event.digitalRead p (env.pinRead s.trace p)] := rfl
@[simp] theorem digitalRead_mem (env : Env) (p : Nat) (s : World) :
    (digitalRead env p s).2.mem = s.mem := rfl
@[simp] theorem digitalRead_accessLog (env : Env) (p : Nat) (s : World) :
    (digitalRead env p s).2.accessLog = s.accessLog := rfl

theorem callEvents_of_append {s s1 : World} {evs : List Event}
    (h : s1.trace = s.trace ++ evs) : callEvents s s1 = evs := by
  simp [callEvents, h]

theorem callAccesses_of_append {s s1 : World} {as : List Nat}
    (h : s1.accessLog = s.accessLog ++ as) : callAccesses s s1 = as := by
  simp [callAccesses, h]

/-! ## The two loops -/

/-- The read loop does nothing when entered with `index` at or past `count`. -/
theorem readLoop_done (env : Env) (address values count : Nat) (hc : count < 256)
    (index : Nat) (s : World) (h : count ≤ index) :
    readLoop env address values count hc index s = (index, s) := by
  rw [readLoop, if_neg (by omega)]

/-- Effect of the read loop entered at `index` with `n` iterations to go: it
stops at `count`, emits `n` transfers of `address`, stores the byte returned
by each into consecutive cells, and touches no other cell. -/
theorem readLoop_spec (env : Env) (address values count : Nat) (hc : count < 256)
    (ha : address < 256) :
    ∀ (n index : Nat) (s : World), index + n = count →
      (readLoop env address values count hc index s).1 = count ∧
      (readLoop env address values count hc index s).2.trace
        = s.trace ++ (List.range' index n).map (fun i =>
            Event.transfer address
              ((readLoop env address values count hc index s).2.mem (values + i))) ∧
      (readLoop env address values count hc index s).2.accessLog
        = s.accessLog ++ (List.range' index n).map (fun i => values + i) ∧
      (∀ a, (a < values + index ∨ values + count ≤ a) →
        (readLoop env address values count hc index s).2.mem a = s.mem a) ∧
      (∀ i, index ≤ i → i < count →
        (readLoop env address values count hc index s).2.mem (values + i) < 256) := by
  intro n
  induction n with
  | zero =>
    intro index s h
    rw [readLoop_done env address values count hc index s (by omega)]
    simp
    exact ⟨by omega, fun i h1 h2 => absurd h2 (by omega)⟩
  | succ n ih =>
    intro index s h
    have hlt : index < count := by omega
    have hmod : (index + 1) % 256 = index + 1 := Nat.mod_eq_of_lt (by omega)
    rw [readLoop, if_pos hlt]
    simp only [hmod]
    obtain ⟨h1, h2, h3, h4, h5⟩ :=
      ih (index + 1) (store (values + index) (transfer env address s).1 (transfer env address s).2)
        (by omega)
    refine ⟨h1, ?_, ?_, ?_, ?_⟩
    · rw [h2, List.range'_succ, List.map_cons]
      have hcell := h4 (values + index) (Or.inl (by omega))
      rw [hcell]
      simp [Nat.mod_eq_of_lt ha, Nat.mod_mod]
    · rw [h3, List.range'_succ, List.map_cons]
      simp
    · intro a hout
      rw [h4 a (by omega)]
      have hne : a ≠ values + index := by omega
      simp [Function.update_noteq hne]
    · intro i hi1 hi2
      rcases Nat.eq_or_lt_of_le hi1 with heq | hgt
      · subst heq
        rw [h4 (values + index) (Or.inl (by omega))]
        simp
        exact Nat.mod_lt _ (by decide)
      · exact h5 i (by omega) hi2

/-- The read loop from any entry point: `count - index` iterations (none when
`index` is already at or past `count`). -/
theorem readLoop_total (env : Env) (address values count : Nat) (hc : count < 256)
    (ha : address < 256) (index : Nat) (s : World) :
    (readLoop env address values count hc index s).1 = max index count ∧
    (readLoop env address values count hc index s).2.trace
      = s.trace ++ (List.range' index (count - index)).map (fun i =>
          Event.transfer address
            ((readLoop env address values count hc index s).2.mem (values + i))) ∧
    (readLoop env address values count hc index s).2.accessLog
      = s.accessLog ++ (List.range' index (count - index)).map (fun i => values + i) ∧
    (∀ a, (a < values + index ∨ values + count ≤ a) →
      (readLoop env address values count hc index s).2.mem a = s.mem a) := by
  by_cases h : index ≤ count
  · obtain ⟨h1, h2, h3, h4, -⟩ :=
      readLoop_spec env address values count hc ha (count - index) index s (by omega)
    exact ⟨by rw [h1]; omega, h2, h3, h4⟩
  · rw [readLoop_done env address values count hc index s (by omega)]
    have h0 : count - index = 0 := by omega
    simp [h0]
    omega

/-- Effect of the write loop entered at `index` with `n` iterations to go: it
emits `n` transfers whose payloads are the consecutive cells read, reads
exactly those cells and changes no memory. -/
theorem writeLoop_spec (env : Env) (values count : Nat) (hc : count < 256) :
    ∀ (n index : Nat) (s : World), index + n = count →
      ∃ rs : List Nat, rs.length = n ∧
        (writeLoop env values count hc index s).trace
          = s.trace ++ List.zipWith Event.transfer
              ((List.range' index n).map (fun i => s.mem (values + i) % 256)) rs ∧
        (writeLoop env values count hc index s).mem = s.mem ∧
        (writeLoop env values count hc index s).accessLog
          = s.accessLog ++ (List.range' index n).map (fun i => values + i) := by
  intro n
  induction n with
  | zero =>
    intro index s h
    refine ⟨[], rfl, ?_⟩
    rw [writeLoop, if_neg (by omega)]
    simp
  | succ n ih =>
    intro index s h
    have hlt : index < count := by omega
    have hmod : (index + 1) % 256 = index + 1 := Nat.mod_eq_of_lt (by omega)
    rw [writeLoop, if_pos hlt]
    simp only [hmod]
    obtain ⟨rs, hlen, h2, h3, h4⟩ :=
      ih (index + 1) (transfer env (load (values + index) s).1 (load (values + index) s).2).2
        (by omega)
    refine ⟨env.spiTransfer s.trace (s.mem (values + index) % 256) % 256 :: rs, by simp [hlen],
      ?_, ?_, ?_⟩
    · rw [h2, List.range'_succ, List.map_cons, List.zipWith_cons_cons]
      simp [Nat.mod_mod]
    · rw [h3]
      simp
    · rw [h4, List.range'_succ, List.map_cons]
      simp

/-! ## Block read: the three paths through the code -/

/-- Block read with a zero `count` returns at the guard: the world is
untouched. -/
theorem readBlock_zero (env : Env) (d : Device) (reg count values rxAlign : Nat) (s : World)
    (hc : count % 256 = 0) :
    PCD_ReadRegister_count env d reg count values rxAlign s = s := by
  simp [PCD_ReadRegister_count, hc]

/-- Block read without alignment (`rxAlign = 0`, `count ≥ 1`). -/
theorem readBlock_plain (env : Env) (d : Device) (reg count values rxAlign : Nat) (s : World)
    (hc : count % 256 ≠ 0) (hr : rxAlign % 256 = 0) :
    ∃ r0 : Nat,
      (PCD_ReadRegister_count env d reg count values rxAlign s).trace
        = s.trace ++ ([Event.beginTransaction d._spiSettings,
            Event.digitalWrite d._chipSelectPin Level.LOW,
            Event.transfer ((0x80 ||| (reg <<< 1)) % 256) r0]
          ++ (List.range' 0 (count % 256 - 1)).map (fun i =>
              Event.transfer ((0x80 ||| (reg <<< 1)) % 256)
                ((PCD_ReadRegister_count env d reg count values rxAlign s).mem (values + i)))
          ++ [Event.transfer 0
                ((PCD_ReadRegister_count env d reg count values rxAlign s).mem
                  (values + (count % 256 - 1))),
              Event.digitalWrite d._chipSelectPin Level.HIGH,
              Event.endTransaction]) ∧
      (PCD_ReadRegister_count env d reg count values rxAlign s).accessLog
        = s.accessLog ++ (List.range' 0 (count % 256 - 1)).map (fun i => values + i)
            ++ [values + (count % 256 - 1)] ∧
      (∀ a, (a < values ∨ values + count % 256 ≤ a) →
        (PCD_ReadRegister_count env d reg count values rxAlign s).mem a = s.mem a) := by
  have hc256 : count % 256 < 256 := Nat.mod_lt _ (by decide)
  have hm : (count % 256 + 255) % 256 = count % 256 - 1 := by omega
  have ha : (0x80 ||| (reg <<< 1)) % 256 < 256 := Nat.mod_lt _ (by decide)
  simp only [PCD_ReadRegister_count, if_neg hc, readAligned, hr, ne_eq, not_true_eq_false,
    if_false]
  generalize_proofs hp
  revert hp
  rw [hm]
  intro hp
  generalize hs1 : (transfer env ((0x80 ||| (reg <<< 1)) % 256)
      (digitalWrite d._chipSelectPin Level.LOW (beginTransaction d._spiSettings s))).2 = s1
  have t1 : s1.trace = s.trace ++ [Event.beginTransaction d._spiSettings,
      Event.digitalWrite d._chipSelectPin Level.LOW,
      Event.transfer ((0x80 ||| (reg <<< 1)) % 256)
        (env.spiTransfer (s.trace ++ [Event.beginTransaction d._spiSettings,
          Event.digitalWrite d._chipSelectPin Level.LOW]) ((0x80 ||| (reg <<< 1)) % 256) % 256)] := by
    rw [← hs1]; simp
  have m1 : s1.mem = s.mem := by rw [← hs1]; simp
  have a1 : s1.accessLog = s.accessLog := by rw [← hs1]; simp
  obtain ⟨h1, h2, h3, h4, -⟩ := readLoop_spec env _ values (count % 256 - 1) hp ha
    (count % 256 - 1) 0 s1 (by omega)
  generalize hL : readLoop env ((0x80 ||| (reg <<< 1)) % 256) values (count % 256 - 1) hp 0 s1
    = L at h1 h2 h3 h4 ⊢
  refine ⟨env.spiTransfer (s.trace ++ [Event.beginTransaction d._spiSettings,
    Event.digitalWrite d._chipSelectPin Level.LOW]) ((0x80 ||| (reg <<< 1)) % 256) % 256,
    ?_, ?_, ?_⟩
  · simp only [endTransaction_trace, digitalWrite_trace, store_trace, transfer_trace, h1, h2, t1,
      endTransaction_mem, digitalWrite_mem, store_mem, transfer_mem, Function.update_same,
      transfer_fst]
    simp only [List.append_assoc, List.cons_append, List.nil_append, Nat.mod_mod, Nat.zero_mod]
    congr 5
    apply List.map_congr_left
    intro i hi
    have hi2 : i < count % 256 - 1 := by
      have := (List.mem_range'_1.mp hi).2
      omega
    rw [Function.update_noteq (by omega)]
  · simp only [endTransaction_accessLog, digitalWrite_accessLog, store_accessLog,
      transfer_accessLog, h1, h3, a1]
  · intro a hout
    simp only [endTransaction_mem, digitalWrite_mem, store_mem, transfer_mem, h1]
    rw [Function.update_noteq (by omega), h4 a (by omega), m1]

/-- The value of `toByte` is a byte. -/
theorem toByte_lt (i : Int) : toByte i < 256 := by
  unfold toByte
  have h1 : 0 ≤ i % 256 := Int.emod_nonneg _ (by decide)
  have h2 : i % 256 < 256 := Int.emod_lt_of_pos _ (by decide)
  omega

/-- Block read with alignment (`rxAlign ≠ 0`, `count ≥ 1`): the second
transfer's answer is merged into `values[0]`, the loop continues from index 1,
and the final byte is stored at index `max 1 (count - 1)`. -/
theorem readBlock_aligned (env : Env) (d : Device) (reg count values rxAlign : Nat) (s : World)
    (hc : count % 256 ≠ 0) (hr : rxAlign % 256 ≠ 0) :
    ∃ r0 r1 : Nat,
      (PCD_ReadRegister_count env d reg count values rxAlign s).trace
        = s.trace ++ ([Event.beginTransaction d._spiSettings,
            Event.digitalWrite d._chipSelectPin Level.LOW,
            Event.transfer ((0x80 ||| (reg <<< 1)) % 256) r0,
            Event.transfer ((0x80 ||| (reg <<< 1)) % 256) r1]
          ++ (List.range' 1 (count % 256 - 1 - 1)).map (fun i =>
              Event.transfer ((0x80 ||| (reg <<< 1)) % 256)
                ((PCD_ReadRegister_count env d reg count values rxAlign s).mem (values + i)))
          ++ [Event.transfer 0
                ((PCD_ReadRegister_count env d reg count values rxAlign s).mem
                  (values + max 1 (count % 256 - 1))),
              Event.digitalWrite d._chipSelectPin Level.HIGH,
              Event.endTransaction]) ∧
      (PCD_ReadRegister_count env d reg count values rxAlign s).accessLog
        = s.accessLog ++ [values, values]
            ++ (List.range' 1 (count % 256 - 1 - 1)).map (fun i => values + i)
            ++ [values + max 1 (count % 256 - 1)] ∧
      (PCD_ReadRegister_count env d reg count values rxAlign s).mem values
        = toByte (mergeBits (s.mem values % 256) r1
            (((0xFF <<< (rxAlign % 256)) &&& 0xFF) % 256)) ∧
      (∀ a, (a < values ∨ values + max 1 (count % 256 - 1) < a) →
        (PCD_ReadRegister_count env d reg count values rxAlign s).mem a = s.mem a) := by
  have hc256 : count % 256 < 256 := Nat.mod_lt _ (by decide)
  have hm : (count % 256 + 255) % 256 = count % 256 - 1 := by omega
  have ha : (0x80 ||| (reg <<< 1)) % 256 < 256 := Nat.mod_lt _ (by decide)
  simp only [PCD_ReadRegister_count, if_neg hc, readAligned, hr, ne_eq, not_false_eq_true,
    if_true]
  generalize_proofs hp
  revert hp
  rw [hm]
  intro hp
  generalize hs1 : (transfer env ((0x80 ||| (reg <<< 1)) % 256)
      (digitalWrite d._chipSelectPin Level.LOW (beginTransaction d._spiSettings s))).2 = s1
  have t1 : s1.trace = s.trace ++ [Event.beginTransaction d._spiSettings,
      Event.digitalWrite d._chipSelectPin Level.LOW,
      Event.transfer ((0x80 ||| (reg <<< 1)) % 256)
        (env.spiTransfer (s.trace ++ [Event.beginTransaction d._spiSettings,
          Event.digitalWrite d._chipSelectPin Level.LOW]) ((0x80 ||| (reg <<< 1)) % 256) % 256)] := by
    rw [← hs1]; simp
  have m1 : s1.mem = s.mem := by rw [← hs1]; simp
  have a1 : s1.accessLog = s.accessLog := by rw [← hs1]; simp
  generalize hs2 : store (values + 0)
      (toByte (mergeBits (load (values + 0) (transfer env ((0x80 ||| (reg <<< 1)) % 256) s1).2).1
        (transfer env ((0x80 ||| (reg <<< 1)) % 256) s1).1
        (((0xFF <<< (rxAlign % 256)) &&& 0xFF) % 256)))
      (load (values + 0) (transfer env ((0x80 ||| (reg <<< 1)) % 256) s1).2).2 = s2
  have t2 : s2.trace = s1.trace ++ [Event.transfer ((0x80 ||| (reg <<< 1)) % 256)
      (env.spiTransfer s1.trace ((0x80 ||| (reg <<< 1)) % 256) % 256)] := by
    rw [← hs2]; simp
  have m2 : s2.mem = Function.update s.mem values
      (toByte (mergeBits (s.mem values % 256)
        (env.spiTransfer s1.trace ((0x80 ||| (reg <<< 1)) % 256) % 256)
        (((0xFF <<< (rxAlign % 256)) &&& 0xFF) % 256))) := by
    rw [← hs2]; simp [m1, Nat.mod_eq_of_lt (toByte_lt _)]
  have a2 : s2.accessLog = s.accessLog ++ [values, values] := by
    rw [← hs2]; simp [a1]
  have hidx : (0 + 1) % 256 = 1 := by decide
  rw [hidx]
  obtain ⟨h1, h2, h3, h4⟩ := readLoop_total env _ values (count % 256 - 1) hp ha 1 s2
  generalize hL : readLoop env ((0x80 ||| (reg <<< 1)) % 256) values (count % 256 - 1) hp 1 s2
    = L at h1 h2 h3 h4 ⊢
  refine ⟨env.spiTransfer (s.trace ++ [Event.beginTransaction d._spiSettings,
    Event.digitalWrite d._chipSelectPin Level.LOW]) ((0x80 ||| (reg <<< 1)) % 256) % 256,
    env.spiTransfer s1.trace ((0x80 ||| (reg <<< 1)) % 256) % 256, ?_, ?_, ?_, ?_⟩
  · simp only [endTransaction_trace, digitalWrite_trace, store_trace, transfer_trace, h1, h2, t1,
      t2, endTransaction_mem, digitalWrite_mem, store_mem, transfer_mem, Function.update_same,
      transfer_fst]
    simp only [List.append_assoc, List.cons_append, List.nil_append, Nat.mod_mod, Nat.zero_mod]
    congr 6
    apply List.map_congr_left
    intro i hi
    have hi2 := List.mem_range'_1.mp hi
    rw [Function.update_noteq (by omega)]
  · simp only [endTransaction_accessLog, digitalWrite_accessLog, store_accessLog,
      transfer_accessLog, h1, h3, a2]
  · simp only [endTransaction_mem, digitalWrite_mem, store_mem, transfer_mem, h1]
    rw [Function.update_noteq (by omega), h4 values (Or.inl (by omega)), m2]
    simp
  · intro a hout
    simp only [endTransaction_mem, digitalWrite_mem, store_mem, transfer_mem, h1]
    rw [Function.update_noteq (by omega), h4 a (by omega), m2]
    exact Function.update_noteq (by omega) _ _

/-! ## Address bytes -/

/-- For a register id below 64 the write address byte `reg << 1` fits a byte,
equals `(reg << 1) & 0xFE`, and has bits 0 and 7 clear. -/
theorem writeAddress_facts : ∀ reg, reg < 64 →
    (reg <<< 1) % 256 = (reg <<< 1) &&& 0xFE ∧ (reg <<< 1) % 256 = reg <<< 1 ∧
    (reg <<< 1) % 256 < 128 ∧
    Nat.testBit ((reg <<< 1) % 256) 0 = false ∧ Nat.testBit ((reg <<< 1) % 256) 7 = false := by
  decide

/-- For a register id below 64 the read address byte `0x80 | (reg << 1)` fits
a byte, has bit 0 clear and bit 7 set. -/
theorem readAddress_facts : ∀ reg, reg < 64 →
    (0x80 ||| (reg <<< 1)) % 256 = 0x80 ||| (reg <<< 1) ∧
    Nat.testBit ((0x80 ||| (reg <<< 1)) % 256) 0 = false ∧
    Nat.testBit ((0x80 ||| (reg <<< 1)) % 256) 7 = true := by
  decide

/-! ## Single-register operations -/

/-- Trace, memory and access log after a single-register write. -/
theorem writeSingle_effect (env : Env) (d : Device) (reg value : Nat) (s : World) :
    ∃ r0 r1 : Nat,
      (PCD_WriteRegister env d reg value s).trace
        = s.trace ++ [Event.beginTransaction d._spiSettings,
            Event.digitalWrite d._chipSelectPin Level.LOW,
            Event.transfer ((reg <<< 1) % 256) r0,
            Event.transfer (value % 256) r1,
            Event.digitalWrite d._chipSelectPin Level.HIGH,
            Event.endTransaction] ∧
      (PCD_WriteRegister env d reg value s).mem = s.mem ∧
      (PCD_WriteRegister env d reg value s).accessLog = s.accessLog := by
  simp only [PCD_WriteRegister, endTransaction_trace, digitalWrite_trace, transfer_trace,
    beginTransaction_trace, List.append_assoc, List.cons_append, List.nil_append, Nat.mod_mod,
    endTransaction_mem, digitalWrite_mem, transfer_mem, beginTransaction_mem,
    endTransaction_accessLog, digitalWrite_accessLog, transfer_accessLog,
    beginTransaction_accessLog]
  exact ⟨_, _, rfl, trivial, trivial⟩

/-- Trace, result, memory and access log after a single-register read. -/
theorem readSingle_effect (env : Env) (d : Device) (reg : Nat) (s : World) :
    ∃ r0 : Nat,
      (PCD_ReadRegister env d reg s).2.trace
        = s.trace ++ [Event.beginTransaction d._spiSettings,
            Event.digitalWrite d._chipSelectPin Level.LOW,
            Event.transfer ((0x80 ||| (reg <<< 1)) % 256) r0,
            Event.transfer 0 (PCD_ReadRegister env d reg s).1,
            Event.digitalWrite d._chipSelectPin Level.HIGH,
            Event.endTransaction] ∧
      (PCD_ReadRegister env d reg s).2.mem = s.mem ∧
      (PCD_ReadRegister env d reg s).2.accessLog = s.accessLog := by
  simp only [PCD_ReadRegister, endTransaction_trace, digitalWrite_trace, transfer_trace,
    beginTransaction_trace, List.append_assoc, List.cons_append, List.nil_append, Nat.mod_mod,
    transfer_fst, Nat.zero_mod,
    endTransaction_mem, digitalWrite_mem, transfer_mem, beginTransaction_mem,
    endTransaction_accessLog, digitalWrite_accessLog, transfer_accessLog,
    beginTransaction_accessLog]
  exact ⟨_, rfl, trivial, trivial⟩

/-! ## Block write -/

/-- Trace, memory and access log after a block write. -/
theorem writeBlock_effect (env : Env) (d : Device) (reg count values : Nat) (s : World) :
    ∃ rs : List Nat, rs.length = count % 256 + 1 ∧
      (PCD_WriteRegister_count env d reg count values s).trace
        = s.trace ++ ([Event.beginTransaction d._spiSettings,
            Event.digitalWrite d._chipSelectPin Level.LOW]
          ++ List.zipWith Event.transfer
              ((reg <<< 1) % 256 ::
                (List.range' 0 (count % 256)).map (fun i => s.mem (values + i) % 256)) rs
          ++ [Event.digitalWrite d._chipSelectPin Level.HIGH, Event.endTransaction]) ∧
      (PCD_WriteRegister_count env d reg count values s).mem = s.mem ∧
      (PCD_WriteRegister_count env d reg count values s).accessLog
        = s.accessLog ++ (List.range' 0 (count % 256)).map (fun i => values + i) := by
  obtain ⟨rs, hlen, h2, h3, h4⟩ := writeLoop_spec env values (count % 256)
    (Nat.mod_lt _ (by decide)) (count % 256) 0
    (transfer env (reg <<< 1)
      (digitalWrite d._chipSelectPin Level.LOW (beginTransaction d._spiSettings s))).2
    (by omega)
  refine ⟨env.spiTransfer (s.trace ++ [Event.beginTransaction d._spiSettings,
    Event.digitalWrite d._chipSelectPin Level.LOW]) ((reg <<< 1) % 256) % 256 :: rs,
    by simp [hlen], ?_, ?_, ?_⟩
  · simp only [PCD_WriteRegister_count, endTransaction_trace, digitalWrite_trace, h2,
      transfer_trace, transfer_mem, digitalWrite_mem, beginTransaction_mem,
      beginTransaction_trace, List.zipWith_cons_cons]
    simp only [List.append_assoc, List.cons_append, List.nil_append]
  · simp only [PCD_WriteRegister_count, endTransaction_mem, digitalWrite_mem, h3, transfer_mem,
      beginTransaction_mem]
  · simp only [PCD_WriteRegister_count, endTransaction_accessLog, digitalWrite_accessLog, h4,
      transfer_accessLog, beginTransaction_accessLog]

/-! ## Initialisation -/

/-- The three paths through `PCD_Init`: reset pin unused; reset pin reads
`LOW`; reset pin reads `HIGH`. -/
theorem init_effect (env : Env) (UNUSED_PIN : Nat) (d : Device) (s : World) :
    (d._resetPowerDownPin = UNUSED_PIN →
      PCD_Init env UNUSED_PIN d s = (false,
        { s with trace := s.trace ++ [Event.spiBegin,
            Event.pinMode d._chipSelectPin PinMode.OUTPUT,
            Event.digitalWrite d._chipSelectPin Level.HIGH] })) ∧
    (d._resetPowerDownPin ≠ UNUSED_PIN →
      env.pinRead (s.trace ++ [Event.spiBegin,
        Event.pinMode d._chipSelectPin PinMode.OUTPUT,
        Event.digitalWrite d._chipSelectPin Level.HIGH,
        Event.pinMode d._resetPowerDownPin PinMode.OUTPUT]) d._resetPowerDownPin = Level.LOW →
      PCD_Init env UNUSED_PIN d s = (true,
        { s with trace := s.trace ++ [Event.spiBegin,
            Event.pinMode d._chipSelectPin PinMode.OUTPUT,
            Event.digitalWrite d._chipSelectPin Level.HIGH,
            Event.pinMode d._resetPowerDownPin PinMode.OUTPUT,
            Event.digitalRead d._resetPowerDownPin Level.LOW,
            Event.digitalWrite d._resetPowerDownPin Level.HIGH,
            Event.delay 50] })) ∧
    (d._resetPowerDownPin ≠ UNUSED_PIN →
      env.pinRead (s.trace ++ [Event.spiBegin,
        Event.pinMode d._chipSelectPin PinMode.OUTPUT,
        Event.digitalWrite d._chipSelectPin Level.HIGH,
        Event.pinMode d._resetPowerDownPin PinMode.OUTPUT]) d._resetPowerDownPin = Level.HIGH →
      PCD_Init env UNUSED_PIN d s = (false,
        { s with trace := s.trace ++ [Event.spiBegin,
            Event.pinMode d._chipSelectPin PinMode.OUTPUT,
            Event.digitalWrite d._chipSelectPin Level.HIGH,
            Event.pinMode d._resetPowerDownPin PinMode.OUTPUT,
            Event.digitalRead d._resetPowerDownPin Level.HIGH] })) := by
  refine ⟨?_, ?_, ?_⟩
  · intro h
    simp [PCD_Init, h, spiBegin, pinMode, digitalWrite, emit]
  · intro h hl
    simp [PCD_Init, h, spiBegin, pinMode, digitalWrite, digitalRead, delay, emit]
    simp [hl]
  · intro h hl
    simp [PCD_Init, h, spiBegin, pinMode, digitalWrite, digitalRead, emit]
    simp [hl]

/-! ## Payloads and responses of event lists -/

theorem payloads_append (xs ys : List Event) :
    payloads (xs ++ ys) = payloads xs ++ payloads ys := by
  simp [payloads, List.filterMap_append]

theorem responses_append (xs ys : List Event) :
    responses (xs ++ ys) = responses xs ++ responses ys := by
  simp [responses, List.filterMap_append]

theorem payloads_map_transfer (a : Nat) (f : Nat → Nat) (l : List Nat) :
    payloads (l.map (fun i => Event.transfer a (f i))) = List.replicate l.length a := by
  induction l with
  | nil => rfl
  | cons x xs ih =>
    simp only [payloads] at ih
    simp [payloads, List.filterMap_cons, payloadOf, ih, List.replicate_succ]

theorem responses_map_transfer (a : Nat) (f : Nat → Nat) (l : List Nat) :
    responses (l.map (fun i => Event.transfer a (f i))) = l.map f := by
  induction l with
  | nil => rfl
  | cons x xs ih =>
    simp only [responses] at ih
    simp [responses, List.filterMap_cons, responseOf, ih]

theorem payloads_zipWith_transfer : ∀ (ps rs : List Nat), ps.length = rs.length →
    payloads (List.zipWith Event.transfer ps rs) = ps
  | [], [], _ => rfl
  | [], _ :: _, h => by simp at h
  | _ :: _, [], h => by simp at h
  | p :: ps, r :: rs, h => by
    have ih := payloads_zipWith_transfer ps rs (by simpa using h)
    simp only [payloads] at ih
    simp [payloads, List.filterMap_cons, payloadOf, ih]

/-- The list `f 0, f 1, ..., f (n - 1), f n` read at position `i ≤ n`. -/
theorem getElem?_range'_map_snoc (f : Nat → Nat) (n i : Nat) (hi : i ≤ n) :
    ((List.range' 0 n).map f ++ [f n])[i]? = some (f i) := by
  have h : (List.range' 0 n).map f ++ [f n] = (List.range (n + 1)).map f := by
    rw [List.range_succ, List.map_append, List.range_eq_range']
    rfl
  rw [h, List.getElem?_map, List.getElem?_range (by omega)]
  rfl

/-! ## The bus-discipline monitor -/

theorem replay_append (csPin : Nat) (xs ys : List Event) :
    ∀ b : BusState, replay csPin b (xs ++ ys)
      = match replay csPin b xs with
        | some b1 => replay csPin b1 ys
        | none => none := by
  induction xs with
  | nil => intro b; rfl
  | cons x xs ih =>
    intro b
    simp only [List.cons_append, replay]
    cases stepBus csPin b x with
    | none => rfl
    | some b1 => exact ih b1

/-- Transfers made while chip-select is `LOW` inside a transaction are all
accepted and leave the bus state as it is. -/
theorem replay_transfers (csPin : Nat) (xs : List Event)
    (hx : ∀ e ∈ xs, ∃ o r, e = Event.transfer o r) :
    replay csPin { cs := Level.LOW, inTransaction := true } xs
      = some { cs := Level.LOW, inTransaction := true } := by
  induction xs with
  | nil => rfl
  | cons x xs ih =>
    obtain ⟨o, r, rfl⟩ := hx x (List.mem_cons_self _ _)
    simp only [replay, stepBus, and_self, if_true]
    exact ih (fun e he => hx e (List.mem_cons_of_mem _ he))

/-- A run of transfers bracketed by begin-transaction / select and by
release / end-transaction is accepted from any bus state and ends idle. -/
theorem replay_frame (csPin st : Nat) (xs : List Event)
    (hx : ∀ e ∈ xs, ∃ o r, e = Event.transfer o r) (b : BusState) :
    replay csPin b ([Event.beginTransaction st, Event.digitalWrite csPin Level.LOW] ++ xs
      ++ [Event.digitalWrite csPin Level.HIGH, Event.endTransaction]) = some idle := by
  rw [List.append_assoc, replay_append]
  have h1 : replay csPin b [Event.beginTransaction st, Event.digitalWrite csPin Level.LOW]
      = some { cs := Level.LOW, inTransaction := true } := by
    simp [replay, stepBus]
  rw [h1]
  simp only []
  rw [replay_append, replay_transfers csPin xs hx]
  simp [replay, stepBus, idle]

/-- Every element of a `zipWith Event.transfer` list is a transfer. -/
theorem zipWith_transfer_all : ∀ (ps rs : List Nat),
    ∀ e ∈ List.zipWith Event.transfer ps rs, ∃ o r, e = Event.transfer o r
  | [], _, e, he => by simp at he
  | _ :: _, [], e, he => by simp at he
  | p :: ps, r :: rs, e, he => by
    rw [List.zipWith_cons_cons, List.mem_cons] at he
    rcases he with rfl | he
    · exact ⟨p, r, rfl⟩
    · exact zipWith_transfer_all ps rs e he

/-! ## The alignment merge -/

/-- The merge, computed in `int` and converted to `byte`, as an expression on
naturals. -/
theorem toByte_mergeBits (a b m : Nat) :
    toByte (mergeBits a b m) = (Nat.ldiff a m ||| (b &&& m)) % 256 := by
  have h : mergeBits a b m = ((Nat.ldiff a m ||| (b &&& m) : Nat) : Int) := rfl
  rw [h]
  unfold toByte
  omega

/-- Bit `k` of the mask `(0xFF << r) & 0xFF` is set exactly when `r ≤ k`
(for `1 ≤ r ≤ 7`, `k ≤ 7`). -/
theorem mask_bits : ∀ r, r < 8 → ∀ k, k < 8 → 1 ≤ r →
    Nat.testBit (((0xFF <<< r) &&& 0xFF) % 256) k = decide (r ≤ k) := by
  decide

/-- The mask `(0xFF << r) & 0xFF` is a byte. -/
theorem mask_mod (r : Nat) : ((0xFF <<< r) &&& 0xFF) % 256 = (0xFF <<< r) &&& 0xFF :=
  Nat.mod_eq_of_lt (lt_of_le_of_lt Nat.and_le_right (by decide))

/-- The stored byte is `(old & ~mask) | (received & mask)`, with `~mask` the
8-bit complement `0xFF ^ mask`. -/
theorem merge_formula (old rcv mask : Nat) (hmask : mask < 256) :
    toByte (mergeBits (old % 256) rcv mask) = (old &&& (0xFF ^^^ mask)) ||| (rcv &&& mask) := by
  rw [toByte_mergeBits]
  apply Nat.eq_of_testBit_eq
  intro k
  have h256 : (256 : Nat) = 2 ^ 8 := rfl
  have hFF : (0xFF : Nat) = 2 ^ 8 - 1 := rfl
  rw [h256, hFF]
  simp only [Nat.testBit_mod_two_pow, Nat.testBit_or, Nat.testBit_and, Nat.testBit_ldiff,
    Nat.testBit_xor, Nat.testBit_two_pow_sub_one]
  by_cases hk : k < 8
  · simp [hk]
  · have hm : mask.testBit k = false :=
      Nat.testBit_lt_two_pow (lt_of_lt_of_le hmask (by
        have : 2 ^ 8 ≤ 2 ^ k := Nat.pow_le_pow_right (by decide) (by omega)
        simpa using this))
    simp [hk, hm]

/-! ## What the bus sees during a block read -/

/-- Payloads and responses of a block read without alignment. -/
theorem readBlock_plain_bus (env : Env) (d : Device) (reg count values rxAlign : Nat)
    (s : World) (hc : count % 256 ≠ 0) (hr : rxAlign % 256 = 0) :
    payloads (callEvents s (PCD_ReadRegister_count env d reg count values rxAlign s))
      = List.replicate (count % 256) ((0x80 ||| (reg <<< 1)) % 256) ++ [0] ∧
    (responses (callEvents s (PCD_ReadRegister_count env d reg count values rxAlign s))).length
      = count % 256 + 1 ∧
    ∀ i, i < count % 256 →
      (responses (callEvents s (PCD_ReadRegister_count env d reg count values rxAlign s)))[i + 1]?
        = some ((PCD_ReadRegister_count env d reg count values rxAlign s).mem (values + i)) := by
  obtain ⟨r0, ht, -, -⟩ := readBlock_plain env d reg count values rxAlign s hc hr
  have hev := callEvents_of_append ht
  refine ⟨?_, ?_, ?_⟩
  · rw [hev]
    simp only [payloads_append, payloads_map_transfer, List.length_range']
    simp only [payloads, List.filterMap_cons, payloadOf, List.filterMap_nil]
    obtain ⟨m, hm⟩ : ∃ m, count % 256 = m + 1 := ⟨count % 256 - 1, by omega⟩
    rw [hm]
    simp [List.replicate_succ]
  · rw [hev]
    simp only [responses_append, responses_map_transfer]
    simp [responses, List.filterMap_cons, responseOf]
    omega
  · intro i hi
    rw [hev]
    simp only [responses_append, responses_map_transfer]
    simp only [responses, List.filterMap_cons, responseOf, List.filterMap_nil, List.cons_append,
      List.nil_append, List.getElem?_cons_succ, List.append_assoc]
    exact getElem?_range'_map_snoc
      (fun i => (PCD_ReadRegister_count env d reg count values rxAlign s).mem (values + i))
      (count % 256 - 1) i (by omega)

/-- Payloads of a block read with alignment: the address byte at least twice,
then the dummy `0`. -/
theorem readBlock_aligned_payloads (env : Env) (d : Device) (reg count values rxAlign : Nat)
    (s : World) (hc : count % 256 ≠ 0) (hr : rxAlign % 256 ≠ 0) :
    payloads (callEvents s (PCD_ReadRegister_count env d reg count values rxAlign s))
      = List.replicate (count % 256 - 1 - 1 + 2) ((0x80 ||| (reg <<< 1)) % 256) ++ [0] := by
  obtain ⟨r0, r1, ht, -, -, -⟩ := readBlock_aligned env d reg count values rxAlign s hc hr
  rw [callEvents_of_append ht]
  simp only [payloads_append, payloads_map_transfer, List.length_range']
  simp [payloads, List.filterMap_cons, payloadOf, List.replicate_succ]

/-- Every block read that passes the `count == 0` guard is one bracketed run
of transfers. -/
theorem readBlock_frame (env : Env) (d : Device) (reg count values rxAlign : Nat)
    (s : World) (hc : count % 256 ≠ 0) :
    ∃ xs : List Event, (∀ e ∈ xs, ∃ o r, e = Event.transfer o r) ∧
      (PCD_ReadRegister_count env d reg count values rxAlign s).trace
        = s.trace ++ ([Event.beginTransaction d._spiSettings,
            Event.digitalWrite d._chipSelectPin Level.LOW] ++ xs
          ++ [Event.digitalWrite d._chipSelectPin Level.HIGH, Event.endTransaction]) := by
  by_cases hr : rxAlign % 256 = 0
  · obtain ⟨r0, ht, -, -⟩ := readBlock_plain env d reg count values rxAlign s hc hr
    refine ⟨[Event.transfer ((0x80 ||| (reg <<< 1)) % 256) r0]
      ++ (List.range' 0 (count % 256 - 1)).map (fun i =>
          Event.transfer ((0x80 ||| (reg <<< 1)) % 256)
            ((PCD_ReadRegister_count env d reg count values rxAlign s).mem (values + i)))
      ++ [Event.transfer 0
            ((PCD_ReadRegister_count env d reg count values rxAlign s).mem
              (values + (count % 256 - 1)))], ?_, ?_⟩
    · intro e he
      simp only [List.mem_append, List.mem_singleton, List.mem_map] at he
      rcases he with (rfl | ⟨i, -, rfl⟩) | rfl
      · exact ⟨_, _, rfl⟩
      · exact ⟨_, _, rfl⟩
      · exact ⟨_, _, rfl⟩
    · rw [ht]
      simp
  · obtain ⟨r0, r1, ht, -, -, -⟩ := readBlock_aligned env d reg count values rxAlign s hc hr
    refine ⟨[Event.transfer ((0x80 ||| (reg <<< 1)) % 256) r0,
        Event.transfer ((0x80 ||| (reg <<< 1)) % 256) r1]
      ++ (List.range' 1 (count % 256 - 1 - 1)).map (fun i =>
          Event.transfer ((0x80 ||| (reg <<< 1)) % 256)
            ((PCD_ReadRegister_count env d reg count values rxAlign s).mem (values + i)))
      ++ [Event.transfer 0
            ((PCD_ReadRegister_count env d reg count values rxAlign s).mem
              (values + max 1 (count % 256 - 1)))], ?_, ?_⟩
    · intro e he
      simp only [List.mem_append, List.mem_singleton, List.mem_map, List.mem_cons,
        List.not_mem_nil, or_false] at he
      rcases he with ((rfl | rfl) | ⟨i, -, rfl⟩) | rfl
      · exact ⟨_, _, rfl⟩
      · exact ⟨_, _, rfl⟩
      · exact ⟨_, _, rfl⟩
      · exact ⟨_, _, rfl⟩
    · rw [ht]
      simp

/-! ## Sequences of operations -/

/-- Initialisation only appends to the trace, makes no transfer, and leaves
chip-select `HIGH`. -/
theorem init_replay (env : Env) (UNUSED_PIN : Nat) (d : Device) (s : World) :
    ∃ evs : List Event, (PCD_Init env UNUSED_PIN d s).2.trace = s.trace ++ evs ∧
      ∀ b : BusState, replay d._chipSelectPin b evs = some { b with cs := Level.HIGH } := by
  obtain ⟨hA, hB, hC⟩ := init_effect env UNUSED_PIN d s
  by_cases hu : d._resetPowerDownPin = UNUSED_PIN
  · rw [hA hu]
    exact ⟨_, rfl, fun b => by simp [replay, stepBus]⟩
  · cases hl : env.pinRead (s.trace ++ [Event.spiBegin,
        Event.pinMode d._chipSelectPin PinMode.OUTPUT,
        Event.digitalWrite d._chipSelectPin Level.HIGH,
        Event.pinMode d._resetPowerDownPin PinMode.OUTPUT]) d._resetPowerDownPin with
    | LOW =>
      rw [hB hu hl]
      exact ⟨_, rfl, fun b => by simp [replay, stepBus]⟩
    | HIGH =>
      rw [hC hu hl]
      exact ⟨_, rfl, fun b => by simp [replay, stepBus]⟩

/-- Each register operation appends a list of platform calls that the
monitor accepts from the idle bus and that leaves the bus idle. -/
theorem runOp_replay (env : Env) (d : Device) (op : Op) (s : World) :
    ∃ evs : List Event, (runOp env d op s).trace = s.trace ++ evs ∧
      replay d._chipSelectPin idle evs = some idle := by
  cases op with
  | writeRegister reg value =>
    obtain ⟨r0, r1, ht, -, -⟩ := writeSingle_effect env d reg value s
    exact ⟨_, ht, replay_frame d._chipSelectPin d._spiSettings
      [Event.transfer ((reg <<< 1) % 256) r0, Event.transfer (value % 256) r1] (by simp) idle⟩
  | writeRegisterCount reg count values =>
    obtain ⟨rs, -, ht, -, -⟩ := writeBlock_effect env d reg count values s
    exact ⟨_, ht, replay_frame d._chipSelectPin d._spiSettings _ (zipWith_transfer_all _ _) idle⟩
  | readRegister reg =>
    obtain ⟨r0, ht, -, -⟩ := readSingle_effect env d reg s
    exact ⟨_, ht, replay_frame d._chipSelectPin d._spiSettings
      [Event.transfer ((0x80 ||| (reg <<< 1)) % 256) r0,
        Event.transfer 0 (PCD_ReadRegister env d reg s).1] (by simp) idle⟩
  | readRegisterCount reg count values rxAlign =>
    by_cases hc : count % 256 = 0
    · exact ⟨[], by simp [runOp, readBlock_zero env d reg count values rxAlign s hc], rfl⟩
    · obtain ⟨xs, hx, ht⟩ := readBlock_frame env d reg count values rxAlign s hc
      exact ⟨_, ht, replay_frame d._chipSelectPin d._spiSettings xs hx idle⟩

/-- A sequence of register operations started on an idle bus is accepted by
the monitor and leaves the bus idle. -/
theorem runOps_replay (env : Env) (d : Device) (ops : List Op) :
    ∀ s : World, ∃ evs : List Event, (runOps env d ops s).trace = s.trace ++ evs ∧
      replay d._chipSelectPin idle evs = some idle := by
  induction ops with
  | nil => intro s; exact ⟨[], by simp [runOps], rfl⟩
  | cons op ops ih =>
    intro s
    obtain ⟨e1, ht1, hr1⟩ := runOp_replay env d op s
    obtain ⟨e2, ht2, hr2⟩ := ih (runOp env d op s)
    refine ⟨e1 ++ e2, ?_, ?_⟩
    · simp only [runOps]
      rw [ht2, ht1, List.append_assoc]
    · rw [replay_append, hr1]
      exact hr2

/-! ## Answers of the bus -/

theorem exchange_length (env : Env) : ∀ (ps : List Nat) (tr : List Event),
    (exchange env tr ps).length = ps.length
  | [], _ => rfl
  | p :: ps, tr => by
    simp only [exchange, List.length_cons]
    rw [exchange_length env ps]

theorem exchange_append (env : Env) : ∀ (ps qs : List Nat) (tr : List Event),
    exchange env tr (ps ++ qs)
      = exchange env tr ps ++ exchange env (tr ++ exchange env tr ps) qs
  | [], qs, tr => by simp [exchange]
  | p :: ps, qs, tr => by
    have ih := exchange_append env ps qs (tr ++ [Event.transfer p (env.spiTransfer tr p % 256)])
    rw [List.cons_append]
    simp only [exchange]
    rw [ih]
    simp

/-- The answer logged at position `k` of an exchange is what `env` returns for
the payload at position `k`, given the history and the first `k` exchanges. -/
theorem responses_exchange_getElem? (env : Env) : ∀ (ps : List Nat) (tr : List Event)
    (k p : Nat), ps[k]? = some p →
    (responses (exchange env tr ps))[k]?
      = some (env.spiTransfer (tr ++ (exchange env tr ps).take k) p % 256)
  | [], _, k, p, h => by simp at h
  | q :: ps, tr, 0, p, h => by
    simp only [List.getElem?_cons_zero, Option.some.injEq] at h
    subst h
    simp [exchange, responses, responseOf, List.filterMap_cons]
  | q :: ps, tr, k + 1, p, h => by
    simp only [List.getElem?_cons_succ] at h
    have ih := responses_exchange_getElem? env ps
      (tr ++ [Event.transfer q (env.spiTransfer tr q % 256)]) k p h
    simp only [responses] at ih
    simp only [exchange, responses, List.filterMap_cons, responseOf, List.getElem?_cons_succ,
      List.take_succ_cons]
    rw [ih]
    simp

/-- Payloads logged by an exchange are the bytes sent. -/
theorem payloads_exchange (env : Env) : ∀ (ps : List Nat) (tr : List Event),
    payloads (exchange env tr ps) = ps
  | [], _ => rfl
  | p :: ps, tr => by
    have ih := payloads_exchange env ps (tr ++ [Event.transfer p (env.spiTransfer tr p % 256)])
    simp only [payloads] at ih
    simp [exchange, payloads, List.filterMap_cons, payloadOf, ih]

/-- Inside a bracketed run of exchanges, the answer of transfer `k` is what
`env` returns given the history before the call and the first `k + 2` calls. -/
theorem framed_response (env : Env) (tr : List Event) (st cs : Nat) (ps : List Nat)
    (k p : Nat) (hk : ps[k]? = some p) :
    (responses ([Event.beginTransaction st, Event.digitalWrite cs Level.LOW]
        ++ exchange env (tr ++ [Event.beginTransaction st, Event.digitalWrite cs Level.LOW]) ps
        ++ [Event.digitalWrite cs Level.HIGH, Event.endTransaction]))[k]?
      = some (env.spiTransfer
          (tr ++ ([Event.beginTransaction st, Event.digitalWrite cs Level.LOW]
            ++ exchange env (tr ++ [Event.beginTransaction st, Event.digitalWrite cs Level.LOW]) ps
            ++ [Event.digitalWrite cs Level.HIGH, Event.endTransaction]).take (k + 2)) p % 256) := by
  have hlt : k < ps.length := by
    rcases Nat.lt_or_ge k ps.length with h | h
    · exact h
    · rw [List.getElem?_eq_none h] at hk
      cases hk
  have hr : responses ([Event.beginTransaction st, Event.digitalWrite cs Level.LOW]
        ++ exchange env (tr ++ [Event.beginTransaction st, Event.digitalWrite cs Level.LOW]) ps
        ++ [Event.digitalWrite cs Level.HIGH, Event.endTransaction])
      = responses (exchange env
          (tr ++ [Event.beginTransaction st, Event.digitalWrite cs Level.LOW]) ps) := by
    rw [responses_append, responses_append]
    simp [responses, responseOf, List.filterMap_cons]
  have htake : ([Event.beginTransaction st, Event.digitalWrite cs Level.LOW]
        ++ exchange env (tr ++ [Event.beginTransaction st, Event.digitalWrite cs Level.LOW]) ps
        ++ [Event.digitalWrite cs Level.HIGH, Event.endTransaction]).take (k + 2)
      = [Event.beginTransaction st, Event.digitalWrite cs Level.LOW]
        ++ (exchange env
          (tr ++ [Event.beginTransaction st, Event.digitalWrite cs Level.LOW]) ps).take k := by
    rw [List.append_assoc]
    simp only [List.cons_append, List.nil_append, List.take_succ_cons]
    congr 2
    rw [List.take_append_of_le_length (by rw [exchange_length]; omega)]
  rw [hr, htake, responses_exchange_getElem? env ps _ k p hk, List.append_assoc]

/-- Position `k ≤ n` of the payload list `a, ..., a, 0` (with `n` copies of
`a`). -/
theorem replicate_snoc_getElem? (a n k : Nat) (hk : k ≤ n) :
    (List.replicate n a ++ [0])[k]? = some (if k < n then a else 0) := by
  by_cases h : k < n
  · rw [if_pos h, List.getElem?_append_left (by simpa using h)]
    simp [List.getElem?_replicate, h]
  · have hkn : k = n := by omega
    subst hkn
    rw [if_neg h, List.getElem?_append_right (by simp)]
    simp

/-- The read loop logs exactly the exchanges of `count - index` address bytes
with the bus. -/
theorem readLoop_trace_exchange (env : Env) (address values count : Nat) (hc : count < 256)
    (ha : address < 256) :
    ∀ (n index : Nat) (s : World), count - index = n →
      (readLoop env address values count hc index s).2.trace
        = s.trace ++ exchange env s.trace (List.replicate n address) := by
  intro n
  induction n with
  | zero =>
    intro index s h
    rw [readLoop_done env address values count hc index s (by omega)]
    simp [exchange]
  | succ n ih =>
    intro index s h
    have hlt : index < count := by omega
    have hmod : (index + 1) % 256 = index + 1 := Nat.mod_eq_of_lt (by omega)
    rw [readLoop, if_pos hlt]
    simp only [hmod]
    rw [ih (index + 1) _ (by omega)]
    simp [List.replicate_succ, exchange, Nat.mod_eq_of_lt ha]

/-- Every block read that passes the `count == 0` guard logs, between select
and release, exactly the exchanges with the bus of the address byte (`count`
times without alignment, `max 2 count` times with it) followed by the dummy
`0`. -/
theorem readBlock_exchange (env : Env) (d : Device) (reg count values rxAlign : Nat)
    (s : World) (hc : count % 256 ≠ 0) :
    (PCD_ReadRegister_count env d reg count values rxAlign s).trace
      = s.trace ++ ([Event.beginTransaction d._spiSettings,
          Event.digitalWrite d._chipSelectPin Level.LOW]
        ++ exchange env (s.trace ++ [Event.beginTransaction d._spiSettings,
            Event.digitalWrite d._chipSelectPin Level.LOW])
          (List.replicate
              (if rxAlign % 256 = 0 then count % 256 else count % 256 - 1 - 1 + 2)
              ((0x80 ||| (reg <<< 1)) % 256) ++ [0])
        ++ [Event.digitalWrite d._chipSelectPin Level.HIGH, Event.endTransaction]) := by
  have hc256 : count % 256 < 256 := Nat.mod_lt _ (by decide)
  have hm : (count % 256 + 255) % 256 = count % 256 - 1 := by omega
  have ha : (0x80 ||| (reg <<< 1)) % 256 < 256 := Nat.mod_lt _ (by decide)
  have hrep : ∀ a : Nat, List.replicate (count % 256) a
      = a :: List.replicate (count % 256 - 1) a := by
    intro a
    have hcm : count % 256 = (count % 256 - 1) + 1 := by omega
    conv_lhs => rw [hcm]
    rfl
  generalize hs1 : (transfer env ((0x80 ||| (reg <<< 1)) % 256)
      (digitalWrite d._chipSelectPin Level.LOW (beginTransaction d._spiSettings s))).2 = s1
  have t1 : s1.trace = s.trace ++ [Event.beginTransaction d._spiSettings,
      Event.digitalWrite d._chipSelectPin Level.LOW,
      Event.transfer ((0x80 ||| (reg <<< 1)) % 256)
        (env.spiTransfer (s.trace ++ [Event.beginTransaction d._spiSettings,
          Event.digitalWrite d._chipSelectPin Level.LOW]) ((0x80 ||| (reg <<< 1)) % 256) % 256)] := by
    rw [← hs1]; simp
  by_cases hr : rxAlign % 256 = 0
  · simp only [PCD_ReadRegister_count, if_neg hc, readAligned, hr, ne_eq, not_true_eq_false,
      if_false, if_true]
    generalize_proofs hp
    revert hp
    rw [hm]
    intro hp
    rw [hs1]
    have hL := readLoop_trace_exchange env _ values _ hp ha (count % 256 - 1) 0 s1 rfl
    generalize readLoop env ((0x80 ||| (reg <<< 1)) % 256) values (count % 256 - 1) hp 0 s1
      = L at hL ⊢
    simp only [endTransaction_trace, digitalWrite_trace, store_trace, transfer_trace, hL, t1,
      hrep, List.cons_append, exchange, exchange_append]
    simp [Nat.mod_mod]
  · simp only [PCD_ReadRegister_count, if_neg hc, readAligned, hr, ne_eq, not_false_eq_true,
      if_true, if_false]
    generalize_proofs hp
    revert hp
    rw [hm]
    intro hp
    have hidx : (0 + 1) % 256 = 1 := by decide
    rw [hidx, hs1]
    generalize hs2 : store (values + 0)
        (toByte (mergeBits (load (values + 0) (transfer env ((0x80 ||| (reg <<< 1)) % 256) s1).2).1
          (transfer env ((0x80 ||| (reg <<< 1)) % 256) s1).1
          (((0xFF <<< (rxAlign % 256)) &&& 0xFF) % 256)))
        (load (values + 0) (transfer env ((0x80 ||| (reg <<< 1)) % 256) s1).2).2 = s2
    have t2 : s2.trace = s1.trace ++ [Event.transfer ((0x80 ||| (reg <<< 1)) % 256)
        (env.spiTransfer s1.trace ((0x80 ||| (reg <<< 1)) % 256) % 256)] := by
      rw [← hs2]; simp
    have hL := readLoop_trace_exchange env _ values _ hp ha (count % 256 - 1 - 1) 1 s2 rfl
    generalize readLoop env ((0x80 ||| (reg <<< 1)) % 256) values (count % 256 - 1) hp 1 s2
      = L at hL ⊢
    simp only [endTransaction_trace, digitalWrite_trace, store_trace, transfer_trace, hL, t2, t1,
      List.replicate_succ, List.cons_append, exchange, exchange_append]
    simp [Nat.mod_mod, exchange_append, exchange]

/-- The single-register read with both answers spelled out: the first
transfer's answer is discarded, the second one's is the result. -/
theorem readSingle_pinned (env : Env) (d : Device) (reg : Nat) (s : World) :
    (PCD_ReadRegister env d reg s).2.trace
      = s.trace ++ ([Event.beginTransaction d._spiSettings,
          Event.digitalWrite d._chipSelectPin Level.LOW]
        ++ exchange env (s.trace ++ [Event.beginTransaction d._spiSettings,
            Event.digitalWrite d._chipSelectPin Level.LOW])
          [(0x80 ||| (reg <<< 1)) % 256, 0]
        ++ [Event.digitalWrite d._chipSelectPin Level.HIGH, Event.endTransaction]) ∧
    (PCD_ReadRegister env d reg s).1
      = env.spiTransfer (s.trace ++ [Event.beginTransaction d._spiSettings,
          Event.digitalWrite d._chipSelectPin Level.LOW,
          Event.transfer ((0x80 ||| (reg <<< 1)) % 256)
            (env.spiTransfer (s.trace ++ [Event.beginTransaction d._spiSettings,
              Event.digitalWrite d._chipSelectPin Level.LOW])
              ((0x80 ||| (reg <<< 1)) % 256) % 256)]) 0 % 256 := by
  simp only [PCD_ReadRegister, endTransaction_trace, digitalWrite_trace, transfer_trace,
    beginTransaction_trace, transfer_fst, exchange]
  simp [Nat.mod_mod]

/-- Block read without alignment, tied to the bus: the call's events are the
bracketed exchanges of `count` address bytes and the dummy `0`, and
`values[i]` holds what `env` answered to transfer `i + 1`. -/
theorem readBlock_plain_pinned (env : Env) (d : Device) (reg count values rxAlign : Nat)
    (s : World) (hc : count % 256 ≠ 0) (hr : rxAlign % 256 = 0) :
    callEvents s (PCD_ReadRegister_count env d reg count values rxAlign s)
      = [Event.beginTransaction d._spiSettings,
          Event.digitalWrite d._chipSelectPin Level.LOW]
        ++ exchange env (s.trace ++ [Event.beginTransaction d._spiSettings,
            Event.digitalWrite d._chipSelectPin Level.LOW])
          (List.replicate (count % 256) ((0x80 ||| (reg <<< 1)) % 256) ++ [0])
        ++ [Event.digitalWrite d._chipSelectPin Level.HIGH, Event.endTransaction] ∧
    ∀ i, i < count % 256 →
      (PCD_ReadRegister_count env d reg count values rxAlign s).mem (values + i)
        = env.spiTransfer
            (s.trace ++ (callEvents s
              (PCD_ReadRegister_count env d reg count values rxAlign s)).take (i + 3))
            (if i + 1 < count % 256 then (0x80 ||| (reg <<< 1)) % 256 else 0) % 256 := by
  have ht := readBlock_exchange env d reg count values rxAlign s hc
  rw [if_pos hr] at ht
  have hev := callEvents_of_append ht
  refine ⟨hev, fun i hi => ?_⟩
  have h1 := (readBlock_plain_bus env d reg count values rxAlign s hc hr).2.2 i hi
  have h2 := framed_response env s.trace d._spiSettings d._chipSelectPin
    (List.replicate (count % 256) ((0x80 ||| (reg <<< 1)) % 256) ++ [0]) (i + 1)
    (if i + 1 < count % 256 then (0x80 ||| (reg <<< 1)) % 256 else 0)
    (replicate_snoc_getElem? _ _ _ (by omega))
  rw [← hev] at h2
  rw [h1] at h2
  exact Option.some.inj h2

/-- Block read with alignment, tied to the bus: the call's events are the
bracketed exchanges of the address bytes and the dummy `0`, and the second
transfer's logged answer is what `env` answered to it. -/
theorem readBlock_aligned_pinned (env : Env) (d : Device) (reg count values rxAlign : Nat)
    (s : World) (hc : count % 256 ≠ 0) (hr : rxAlign % 256 ≠ 0) :
    callEvents s (PCD_ReadRegister_count env d reg count values rxAlign s)
      = [Event.beginTransaction d._spiSettings,
          Event.digitalWrite d._chipSelectPin Level.LOW]
        ++ exchange env (s.trace ++ [Event.beginTransaction d._spiSettings,
            Event.digitalWrite d._chipSelectPin Level.LOW])
          (List.replicate (count % 256 - 1 - 1 + 2) ((0x80 ||| (reg <<< 1)) % 256) ++ [0])
        ++ [Event.digitalWrite d._chipSelectPin Level.HIGH, Event.endTransaction] ∧
    (responses (callEvents s (PCD_ReadRegister_count env d reg count values rxAlign s)))[1]?
      = some (env.spiTransfer
          (s.trace ++ (callEvents s
            (PCD_ReadRegister_count env d reg count values rxAlign s)).take 3)
          ((0x80 ||| (reg <<< 1)) % 256) % 256) := by
  have ht := readBlock_exchange env d reg count values rxAlign s hc
  rw [if_neg hr] at ht
  have hev := callEvents_of_append ht
  refine ⟨hev, ?_⟩
  have h2 := framed_response env s.trace d._spiSettings d._chipSelectPin
    (List.replicate (count % 256 - 1 - 1 + 2) ((0x80 ||| (reg <<< 1)) % 256) ++ [0]) 1
    ((0x80 ||| (reg <<< 1)) % 256) (by simp [List.replicate_succ])
  rw [← hev] at h2
  exact h2

/-! ## Claims -/

/-- C1. Block read with `rxAlign = 0`, register id below 64, any bus: with
`count = 0` the world is returned as it was (no platform call, no memory
access, memory unchanged); with `count = N ≥ 1` the call makes, between
select and release, exactly `N + 1` transfers with payloads `N` times
`0x80 | (reg << 1)` then `0`, each answered by the bus `env`, and afterwards
`values[i]` holds the byte `env` returned for transfer `i + 1`, that is its
answer to that transfer's payload given everything up to that transfer. -/
theorem C1_blockRead_plain (env : Env) (d : Device) (reg count values : Nat) (s : World)
    (hreg : reg < 64) (hcount : count < 256) :
    (count = 0 → PCD_ReadRegister_count env d reg count values 0 s = s) ∧
    (1 ≤ count →
      (PCD_ReadRegister_count env d reg count values 0 s).trace
        = s.trace ++ callEvents s (PCD_ReadRegister_count env d reg count values 0 s) ∧
      callEvents s (PCD_ReadRegister_count env d reg count values 0 s)
        = [Event.beginTransaction d._spiSettings,
            Event.digitalWrite d._chipSelectPin Level.LOW]
          ++ exchange env (s.trace ++ [Event.beginTransaction d._spiSettings,
              Event.digitalWrite d._chipSelectPin Level.LOW])
            (List.replicate count (0x80 ||| (reg <<< 1)) ++ [0])
          ++ [Event.digitalWrite d._chipSelectPin Level.HIGH, Event.endTransaction] ∧
      (∀ i, i < count →
        (PCD_ReadRegister_count env d reg count values 0 s).mem (values + i)
          = env.spiTransfer
              (s.trace ++ (callEvents s
                (PCD_ReadRegister_count env d reg count values 0 s)).take (i + 3))
              (if i + 1 < count then 0x80 ||| (reg <<< 1) else 0) % 256) ∧
      (∃ r0 : Nat, callEvents s (PCD_ReadRegister_count env d reg count values 0 s)
        = [Event.beginTransaction d._spiSettings,
            Event.digitalWrite d._chipSelectPin Level.LOW,
            Event.transfer (0x80 ||| (reg <<< 1)) r0]
          ++ (List.range' 0 (count - 1)).map (fun i =>
              Event.transfer (0x80 ||| (reg <<< 1))
                ((PCD_ReadRegister_count env d reg count values 0 s).mem (values + i)))
          ++ [Event.transfer 0
                ((PCD_ReadRegister_count env d reg count values 0 s).mem (values + (count - 1))),
              Event.digitalWrite d._chipSelectPin Level.HIGH,
              Event.endTransaction]) ∧
      payloads (callEvents s (PCD_ReadRegister_count env d reg count values 0 s))
        = List.replicate count (0x80 ||| (reg <<< 1)) ++ [0] ∧
      (responses (callEvents s (PCD_ReadRegister_count env d reg count values 0 s))).length
        = count + 1 ∧
      ∀ i, i < count →
        (responses (callEvents s (PCD_ReadRegister_count env d reg count values 0 s)))[i + 1]?
          = some ((PCD_ReadRegister_count env d reg count values 0 s).mem (values + i))) := by
  have hmod : count % 256 = count := Nat.mod_eq_of_lt hcount
  refine ⟨fun h0 => readBlock_zero env d reg count values 0 s (by omega), fun h1 => ?_⟩
  obtain ⟨r0, ht, -, -⟩ := readBlock_plain env d reg count values 0 s (by omega) (by decide)
  obtain ⟨hp, hl, hresp⟩ := readBlock_plain_bus env d reg count values 0 s (by omega) (by decide)
  obtain ⟨hex, hpin⟩ := readBlock_plain_pinned env d reg count values 0 s (by omega) (by decide)
  rw [hmod, (readAddress_facts reg hreg).1] at ht hp hex
  rw [hmod] at hl hresp
  rw [hmod, (readAddress_facts reg hreg).1] at hpin
  have hev := callEvents_of_append ht
  exact ⟨by rw [hev]; exact ht, hex, hpin, ⟨r0, hev⟩, hp, hl, hresp⟩

/-- C1 at register 9, three bytes, buffer at address 100, on the example
platform: the payloads are `0x92, 0x92, 0x92, 0`, and `values[2]` is the
answer of the example bus to the final dummy byte. -/
theorem C1_blockRead_plain_witness :
    (9 < 64 ∧ 3 < 256 ∧ 1 ≤ 3 ∧ 2 < 3) ∧
    payloads (callEvents demoWorld
        (PCD_ReadRegister_count demoEnv demoDevice 9 3 100 0 demoWorld))
      = [0x92, 0x92, 0x92, 0] ∧
    (PCD_ReadRegister_count demoEnv demoDevice 9 3 100 0 demoWorld).mem (100 + 2)
      = demoEnv.spiTransfer
          (demoWorld.trace ++ (callEvents demoWorld
            (PCD_ReadRegister_count demoEnv demoDevice 9 3 100 0 demoWorld)).take (2 + 3))
          0 % 256 :=
  ⟨by decide,
    ((C1_blockRead_plain demoEnv demoDevice 9 3 100 demoWorld (by decide) (by decide)).2
      (by decide)).2.2.2.2.1,
    ((C1_blockRead_plain demoEnv demoDevice 9 3 100 demoWorld (by decide) (by decide)).2
      (by decide)).2.2.1 2 (by decide)⟩

/-- C2. Block read with `1 ≤ rxAlign ≤ 7` and `1 ≤ count ≤ 255`, any bus:
with `received` the byte the bus `env` returned for the second transfer (its
answer to the address byte given the history up to that transfer) and
`mask = (0xFF << rxAlign) & 0xFF`, afterwards
`values[0] = (old values[0] & ~mask) | (received & mask)`; so bits below
`rxAlign` keep their pre-call value and bits `rxAlign..7` are those of
`received`. -/
theorem C2_blockRead_aligned_merge (env : Env) (d : Device) (reg count values rxAlign : Nat)
    (s : World) (hr1 : 1 ≤ rxAlign) (hr7 : rxAlign ≤ 7) (hc1 : 1 ≤ count) (hc : count < 256) :
    ∃ received : Nat,
      received = env.spiTransfer
          (s.trace ++ (callEvents s
            (PCD_ReadRegister_count env d reg count values rxAlign s)).take 3)
          ((0x80 ||| (reg <<< 1)) % 256) % 256 ∧
      (callEvents s (PCD_ReadRegister_count env d reg count values rxAlign s)).take 3
        = [Event.beginTransaction d._spiSettings,
            Event.digitalWrite d._chipSelectPin Level.LOW,
            Event.transfer ((0x80 ||| (reg <<< 1)) % 256)
              (env.spiTransfer (s.trace ++ [Event.beginTransaction d._spiSettings,
                Event.digitalWrite d._chipSelectPin Level.LOW])
                ((0x80 ||| (reg <<< 1)) % 256) % 256)] ∧
      (responses (callEvents s
        (PCD_ReadRegister_count env d reg count values rxAlign s)))[1]? = some received ∧
      (PCD_ReadRegister_count env d reg count values rxAlign s).mem values
        = (s.mem values &&& (0xFF ^^^ ((0xFF <<< rxAlign) &&& 0xFF)))
            ||| (received &&& ((0xFF <<< rxAlign) &&& 0xFF)) ∧
      (∀ k, k < rxAlign →
        Nat.testBit ((PCD_ReadRegister_count env d reg count values rxAlign s).mem values) k
          = Nat.testBit (s.mem values) k) ∧
      (∀ k, rxAlign ≤ k → k ≤ 7 →
        Nat.testBit ((PCD_ReadRegister_count env d reg count values rxAlign s).mem values) k
          = Nat.testBit received k) := by
  have hcm : count % 256 = count := Nat.mod_eq_of_lt hc
  have hrm : rxAlign % 256 = rxAlign := Nat.mod_eq_of_lt (by omega)
  obtain ⟨r0, r1, ht, -, hm, -⟩ :=
    readBlock_aligned env d reg count values rxAlign s (by omega) (by omega)
  obtain ⟨hex, hpin⟩ :=
    readBlock_aligned_pinned env d reg count values rxAlign s (by omega) (by omega)
  rw [hrm, merge_formula _ _ _ (Nat.mod_lt _ (by decide)), mask_mod] at hm
  have hev := callEvents_of_append ht
  have hresp : (responses (callEvents s
      (PCD_ReadRegister_count env d reg count values rxAlign s)))[1]? = some r1 := by
    rw [hev]
    simp [responses, responseOf, List.filterMap_cons]
  have hr1eq : r1 = env.spiTransfer
      (s.trace ++ (callEvents s
        (PCD_ReadRegister_count env d reg count values rxAlign s)).take 3)
      ((0x80 ||| (reg <<< 1)) % 256) % 256 := by
    rw [hresp] at hpin
    exact Option.some.inj hpin
  have htake : (callEvents s (PCD_ReadRegister_count env d reg count values rxAlign s)).take 3
      = [Event.beginTransaction d._spiSettings,
          Event.digitalWrite d._chipSelectPin Level.LOW,
          Event.transfer ((0x80 ||| (reg <<< 1)) % 256)
            (env.spiTransfer (s.trace ++ [Event.beginTransaction d._spiSettings,
              Event.digitalWrite d._chipSelectPin Level.LOW])
              ((0x80 ||| (reg <<< 1)) % 256) % 256)] := by
    rw [hex]
    simp [List.replicate_succ, exchange]
  have hbit : ∀ k, k < 8 →
      Nat.testBit ((PCD_ReadRegister_count env d reg count values rxAlign s).mem values) k
        = if rxAlign ≤ k then Nat.testBit r1 k else Nat.testBit (s.mem values) k := by
    intro k hk
    have hmask := mask_bits rxAlign (by omega) k hk hr1
    rw [mask_mod] at hmask
    have hFF : (0xFF : Nat) = 2 ^ 8 - 1 := rfl
    rw [hm, Nat.testBit_or, Nat.testBit_and, Nat.testBit_and, Nat.testBit_xor, hmask]
    rw [hFF, Nat.testBit_two_pow_sub_one]
    by_cases hle : rxAlign ≤ k <;> simp [hle, hk]
  refine ⟨r1, hr1eq, htake, hresp, hm, ?_, ?_⟩
  · intro k hk
    rw [hbit k (by omega), if_neg (by omega)]
  · intro k hk1 hk2
    rw [hbit k (by omega), if_pos hk1]

/-- C2 on the example platform: one byte at address 100, `rxAlign = 3`. -/
theorem C2_blockRead_aligned_merge_witness :
    (1 ≤ 3 ∧ 3 ≤ 7 ∧ 1 ≤ 1 ∧ 1 < 256) ∧
    ∃ received : Nat,
      received = demoEnv.spiTransfer
          (demoWorld.trace ++ (callEvents demoWorld
            (PCD_ReadRegister_count demoEnv demoDevice 9 1 100 3 demoWorld)).take 3)
          ((0x80 ||| (9 <<< 1)) % 256) % 256 ∧
      (callEvents demoWorld
          (PCD_ReadRegister_count demoEnv demoDevice 9 1 100 3 demoWorld)).take 3
        = [Event.beginTransaction demoDevice._spiSettings,
            Event.digitalWrite demoDevice._chipSelectPin Level.LOW,
            Event.transfer ((0x80 ||| (9 <<< 1)) % 256)
              (demoEnv.spiTransfer (demoWorld.trace
                ++ [Event.beginTransaction demoDevice._spiSettings,
                  Event.digitalWrite demoDevice._chipSelectPin Level.LOW])
                ((0x80 ||| (9 <<< 1)) % 256) % 256)] ∧
      (responses (callEvents demoWorld
        (PCD_ReadRegister_count demoEnv demoDevice 9 1 100 3 demoWorld)))[1]? = some received ∧
      (PCD_ReadRegister_count demoEnv demoDevice 9 1 100 3 demoWorld).mem 100
        = (demoWorld.mem 100 &&& (0xFF ^^^ ((0xFF <<< 3) &&& 0xFF)))
            ||| (received &&& ((0xFF <<< 3) &&& 0xFF)) ∧
      (∀ k, k < 3 →
        Nat.testBit ((PCD_ReadRegister_count demoEnv demoDevice 9 1 100 3 demoWorld).mem 100) k
          = Nat.testBit (demoWorld.mem 100) k) ∧
      (∀ k, 3 ≤ k → k ≤ 7 →
        Nat.testBit ((PCD_ReadRegister_count demoEnv demoDevice 9 1 100 3 demoWorld).mem 100) k
          = Nat.testBit received k) :=
  ⟨by decide,
    C2_blockRead_aligned_merge demoEnv demoDevice 9 1 100 3 demoWorld (by decide) (by decide)
      (by decide) (by decide)⟩

/-- C3. Where the block read touches memory, for `count ≤ 255` and
`rxAlign ≤ 255`.  Unless `count = 1` with `rxAlign ≠ 0`, every cell read or
written is `values[i]` with `i < count` and every cell from `values[count]` on
keeps its value.  With `count = 1` and `rxAlign ≠ 0` the call makes three
transfers (address, address, dummy `0`), reads and writes `values[0]`, and
then writes the byte returned by the third transfer to `values[1]`, one past
the end of a one-byte buffer. -/
theorem C3_blockRead_accesses (env : Env) (d : Device) (reg count values rxAlign : Nat)
    (s : World) (hc : count < 256) (hr : rxAlign < 256) :
    ((rxAlign = 0 ∨ count ≠ 1) →
      (∀ a ∈ callAccesses s (PCD_ReadRegister_count env d reg count values rxAlign s),
        values ≤ a ∧ a < values + count) ∧
      (∀ a, values + count ≤ a →
        (PCD_ReadRegister_count env d reg count values rxAlign s).mem a = s.mem a)) ∧
    ((count = 1 ∧ rxAlign ≠ 0) →
      callAccesses s (PCD_ReadRegister_count env d reg count values rxAlign s)
        = [values, values, values + 1] ∧
      payloads (callEvents s (PCD_ReadRegister_count env d reg count values rxAlign s))
        = [(0x80 ||| (reg <<< 1)) % 256, (0x80 ||| (reg <<< 1)) % 256, 0] ∧
      (responses (callEvents s (PCD_ReadRegister_count env d reg count values rxAlign s)))[2]?
        = some ((PCD_ReadRegister_count env d reg count values rxAlign s).mem (values + 1))) := by
  have hcm : count % 256 = count := Nat.mod_eq_of_lt hc
  have hrm : rxAlign % 256 = rxAlign := Nat.mod_eq_of_lt hr
  refine ⟨fun hcase => ?_, fun hcase => ?_⟩
  · by_cases h0 : count = 0
    · rw [readBlock_zero env d reg count values rxAlign s (by omega)]
      simp [callAccesses]
    · by_cases hr0 : rxAlign = 0
      · obtain ⟨r0, -, hacc, hmem⟩ :=
          readBlock_plain env d reg count values rxAlign s (by omega) (by omega)
        rw [hcm] at hacc hmem
        rw [List.append_assoc] at hacc
        rw [callAccesses_of_append hacc]
        refine ⟨fun a ha => ?_, fun a ha => hmem a (Or.inr ha)⟩
        simp only [List.mem_append, List.mem_map, List.mem_range'_1, List.mem_singleton] at ha
        rcases ha with ⟨i, hi, rfl⟩ | rfl <;> omega
      · obtain ⟨r0, r1, -, hacc, -, hmem⟩ :=
          readBlock_aligned env d reg count values rxAlign s (by omega) (by omega)
        rw [hcm] at hacc hmem
        rw [List.append_assoc, List.append_assoc] at hacc
        rw [callAccesses_of_append hacc]
        have hmax : max 1 (count - 1) = count - 1 := by omega
        rw [hmax] at hmem
        refine ⟨fun a ha => ?_, fun a ha => hmem a (Or.inr (by omega))⟩
        simp only [List.mem_append, List.mem_map, List.mem_range'_1, List.mem_singleton,
          List.mem_cons, List.not_mem_nil, or_false, hmax] at ha
        rcases ha with (rfl | rfl) | ⟨i, hi, rfl⟩ | rfl <;> omega
  · obtain ⟨rfl, hr0⟩ := hcase
    obtain ⟨r0, r1, ht, hacc, -, -⟩ :=
      readBlock_aligned env d reg 1 values rxAlign s (by decide) (by omega)
    have hacc2 : (PCD_ReadRegister_count env d reg 1 values rxAlign s).accessLog
        = s.accessLog ++ [values, values, values + 1] := by
      rw [hacc]; simp
    have hev := callEvents_of_append ht
    refine ⟨callAccesses_of_append hacc2, ?_, ?_⟩
    · rw [hev]
      simp [payloads, payloadOf, List.filterMap_cons]
    · rw [hev]
      simp [responses, responseOf, List.filterMap_cons]

/-- C3 on the example platform with `count = 1`, `rxAlign = 1` and the buffer
at address 100: the cells touched are 100, 100 and 101. -/
theorem C3_blockRead_accesses_witness :
    (1 < 256 ∧ 1 < 256 ∧ (1 = 1 ∧ 1 ≠ 0)) ∧
    callAccesses demoWorld (PCD_ReadRegister_count demoEnv demoDevice 9 1 100 1 demoWorld)
      = [100, 100, 101] :=
  ⟨by decide,
    ((C3_blockRead_accesses demoEnv demoDevice 9 1 100 1 demoWorld (by decide) (by decide)).2
      (by decide)).1⟩

/-- C4. Single-register read, register id below 64, any bus: the call makes
exactly two transfers, `0x80 | (reg << 1)` and then `0`, between chip-select
`LOW` and chip-select `HIGH`, each answered by the bus `env`, and returns the
byte `env` returned for the second transfer (its answer to the dummy `0` given
the history up to and including the first transfer); the first answer is
ignored. -/
theorem C4_readSingle (env : Env) (d : Device) (reg : Nat) (s : World) (hreg : reg < 64) :
    (PCD_ReadRegister env d reg s).2.trace
      = s.trace ++ callEvents s (PCD_ReadRegister env d reg s).2 ∧
    callEvents s (PCD_ReadRegister env d reg s).2
      = [Event.beginTransaction d._spiSettings,
          Event.digitalWrite d._chipSelectPin Level.LOW,
          Event.transfer (0x80 ||| (reg <<< 1))
            (env.spiTransfer (s.trace ++ [Event.beginTransaction d._spiSettings,
              Event.digitalWrite d._chipSelectPin Level.LOW]) (0x80 ||| (reg <<< 1)) % 256),
          Event.transfer 0 (PCD_ReadRegister env d reg s).1,
          Event.digitalWrite d._chipSelectPin Level.HIGH,
          Event.endTransaction] ∧
    (PCD_ReadRegister env d reg s).1
      = env.spiTransfer (s.trace ++ [Event.beginTransaction d._spiSettings,
          Event.digitalWrite d._chipSelectPin Level.LOW,
          Event.transfer (0x80 ||| (reg <<< 1))
            (env.spiTransfer (s.trace ++ [Event.beginTransaction d._spiSettings,
              Event.digitalWrite d._chipSelectPin Level.LOW])
              (0x80 ||| (reg <<< 1)) % 256)]) 0 % 256 ∧
    payloads (callEvents s (PCD_ReadRegister env d reg s).2) = [0x80 ||| (reg <<< 1), 0] ∧
    (responses (callEvents s (PCD_ReadRegister env d reg s).2)).length = 2 ∧
    (responses (callEvents s (PCD_ReadRegister env d reg s).2))[1]?
      = some (PCD_ReadRegister env d reg s).1 ∧
    replay d._chipSelectPin idle (callEvents s (PCD_ReadRegister env d reg s).2) = some idle := by
  obtain ⟨ht, hres⟩ := readSingle_pinned env d reg s
  rw [(readAddress_facts reg hreg).1] at ht hres
  have ht2 : (PCD_ReadRegister env d reg s).2.trace
      = s.trace ++ [Event.beginTransaction d._spiSettings,
          Event.digitalWrite d._chipSelectPin Level.LOW,
          Event.transfer (0x80 ||| (reg <<< 1))
            (env.spiTransfer (s.trace ++ [Event.beginTransaction d._spiSettings,
              Event.digitalWrite d._chipSelectPin Level.LOW]) (0x80 ||| (reg <<< 1)) % 256),
          Event.transfer 0 (PCD_ReadRegister env d reg s).1,
          Event.digitalWrite d._chipSelectPin Level.HIGH,
          Event.endTransaction] := by
    rw [ht, hres]
    simp [exchange]
  have hev := callEvents_of_append ht2
  refine ⟨by rw [hev]; exact ht2, hev, hres, ?_, ?_, ?_, ?_⟩
  · rw [hev]; simp [payloads, payloadOf, List.filterMap_cons]
  · rw [hev]; simp [responses, responseOf, List.filterMap_cons]
  · rw [hev]; simp [responses, responseOf, List.filterMap_cons]
  · rw [hev]
    exact replay_frame d._chipSelectPin d._spiSettings
      [Event.transfer (0x80 ||| (reg <<< 1))
          (env.spiTransfer (s.trace ++ [Event.beginTransaction d._spiSettings,
            Event.digitalWrite d._chipSelectPin Level.LOW]) (0x80 ||| (reg <<< 1)) % 256),
        Event.transfer 0 (PCD_ReadRegister env d reg s).1]
      (by simp) idle

/-- C4 at register 1 on the example platform: the payloads are `0x82, 0`, and
the result is the answer of the example bus to the dummy byte, `0x31`. -/
theorem C4_readSingle_witness :
    1 < 64 ∧
    payloads (callEvents demoWorld (PCD_ReadRegister demoEnv demoDevice 1 demoWorld).2)
      = [0x82, 0] ∧
    (PCD_ReadRegister demoEnv demoDevice 1 demoWorld).1 = 0x31 :=
  ⟨by decide, (C4_readSingle demoEnv demoDevice 1 demoWorld (by decide)).2.2.2.1,
    (C4_readSingle demoEnv demoDevice 1 demoWorld (by decide)).2.2.1⟩

/-- C5. Single-register write, register id below 64, any byte value: the
call emits begin-transaction, chip-select `LOW`, a transfer of
`(reg << 1) & 0xFE` (a byte with its top bit clear), a transfer of `value`,
chip-select `HIGH`, end-transaction, and nothing else. -/
theorem C5_writeSingle (env : Env) (d : Device) (reg value : Nat) (s : World)
    (hreg : reg < 64) (hval : value < 256) :
    (PCD_WriteRegister env d reg value s).trace
      = s.trace ++ callEvents s (PCD_WriteRegister env d reg value s) ∧
    (∃ r0 r1 : Nat, callEvents s (PCD_WriteRegister env d reg value s)
      = [Event.beginTransaction d._spiSettings,
          Event.digitalWrite d._chipSelectPin Level.LOW,
          Event.transfer ((reg <<< 1) &&& 0xFE) r0,
          Event.transfer value r1,
          Event.digitalWrite d._chipSelectPin Level.HIGH,
          Event.endTransaction]) ∧
    payloads (callEvents s (PCD_WriteRegister env d reg value s))
      = [(reg <<< 1) &&& 0xFE, value] ∧
    Nat.testBit ((reg <<< 1) &&& 0xFE) 7 = false ∧
    replay d._chipSelectPin idle (callEvents s (PCD_WriteRegister env d reg value s))
      = some idle := by
  obtain ⟨r0, r1, ht, -, -⟩ := writeSingle_effect env d reg value s
  have hbit := (writeAddress_facts reg hreg).2.2.2.2
  rw [(writeAddress_facts reg hreg).1] at ht hbit
  rw [Nat.mod_eq_of_lt hval] at ht
  have hev := callEvents_of_append ht
  refine ⟨by rw [hev]; exact ht, ⟨r0, r1, hev⟩, ?_, hbit, ?_⟩
  · rw [hev]; simp [payloads, payloadOf, List.filterMap_cons]
  · rw [hev]
    exact replay_frame d._chipSelectPin d._spiSettings
      [Event.transfer ((reg <<< 1) &&& 0xFE) r0, Event.transfer value r1] (by simp) idle

/-- C5 at register `0x01`, value `0xAB`, on the example platform: the
transfers carry `0x02, 0xAB`. -/
theorem C5_writeSingle_witness :
    (0x01 < 64 ∧ 0xAB < 256) ∧
    payloads (callEvents demoWorld (PCD_WriteRegister demoEnv demoDevice 0x01 0xAB demoWorld))
      = [0x02, 0xAB] :=
  ⟨by decide, (C5_writeSingle demoEnv demoDevice 0x01 0xAB demoWorld (by decide) (by decide)).2.2.1⟩

/-- C6. Block write, register id below 64, `count = N ≤ 255`: inside one
bracket (begin-transaction, chip-select `LOW` ... chip-select `HIGH`, then
the matching end-transaction) the call makes exactly `N + 1` transfers, the first
carrying `reg << 1` and the next ones `values[0], ..., values[N-1]` in this
order; it reads exactly the cells `values[0..N-1]`, writes no memory; and for
`N = 0` the bracket holds the address transfer alone. -/
theorem C6_writeBlock (env : Env) (d : Device) (reg count values : Nat) (s : World)
    (hreg : reg < 64) (hc : count < 256) :
    (PCD_WriteRegister_count env d reg count values s).trace
      = s.trace ++ callEvents s (PCD_WriteRegister_count env d reg count values s) ∧
    (∃ rs : List Nat, rs.length = count + 1 ∧
      callEvents s (PCD_WriteRegister_count env d reg count values s)
        = [Event.beginTransaction d._spiSettings,
            Event.digitalWrite d._chipSelectPin Level.LOW]
          ++ List.zipWith Event.transfer
              (reg <<< 1 :: (List.range count).map (fun i => s.mem (values + i) % 256)) rs
          ++ [Event.digitalWrite d._chipSelectPin Level.HIGH, Event.endTransaction]) ∧
    payloads (callEvents s (PCD_WriteRegister_count env d reg count values s))
      = reg <<< 1 :: (List.range count).map (fun i => s.mem (values + i) % 256) ∧
    callAccesses s (PCD_WriteRegister_count env d reg count values s)
      = (List.range count).map (fun i => values + i) ∧
    (∀ a ∈ callAccesses s (PCD_WriteRegister_count env d reg count values s),
      values ≤ a ∧ a < values + count) ∧
    (PCD_WriteRegister_count env d reg count values s).mem = s.mem ∧
    replay d._chipSelectPin idle
      (callEvents s (PCD_WriteRegister_count env d reg count values s)) = some idle ∧
    (count = 0 → ∃ r : Nat,
      callEvents s (PCD_WriteRegister_count env d reg count values s)
        = [Event.beginTransaction d._spiSettings,
            Event.digitalWrite d._chipSelectPin Level.LOW,
            Event.transfer (reg <<< 1) r,
            Event.digitalWrite d._chipSelectPin Level.HIGH,
            Event.endTransaction]) := by
  obtain ⟨rs, hlen, ht, hmem, hacc⟩ := writeBlock_effect env d reg count values s
  rw [Nat.mod_eq_of_lt hc, (writeAddress_facts reg hreg).2.1, ← List.range_eq_range'] at ht
  rw [Nat.mod_eq_of_lt hc] at hlen
  rw [Nat.mod_eq_of_lt hc, ← List.range_eq_range'] at hacc
  have hev := callEvents_of_append ht
  have hac := callAccesses_of_append hacc
  refine ⟨by rw [hev]; exact ht, ⟨rs, hlen, hev⟩, ?_, hac, ?_, hmem, ?_, ?_⟩
  · rw [hev, payloads_append, payloads_append, payloads_zipWith_transfer _ _ (by simp [hlen])]
    simp [payloads, payloadOf, List.filterMap_cons]
  · intro a ha
    rw [hac] at ha
    simp only [List.mem_map, List.mem_range] at ha
    obtain ⟨i, hi, rfl⟩ := ha
    omega
  · rw [hev]
    exact replay_frame d._chipSelectPin d._spiSettings _ (zipWith_transfer_all _ _) idle
  · intro h0
    subst h0
    rw [hev]
    match rs, hlen with
    | [r], _ => exact ⟨r, rfl⟩

/-- C6 at register 9 with three bytes at address 100 on the example platform:
the payloads are `0x12` and then the three buffer bytes. -/
theorem C6_writeBlock_witness :
    (9 < 64 ∧ 3 < 256) ∧
    payloads (callEvents demoWorld (PCD_WriteRegister_count demoEnv demoDevice 9 3 100 demoWorld))
      = [0x12, 0xB9, 0xBA, 0xBB] :=
  ⟨by decide, (C6_writeBlock demoEnv demoDevice 9 3 100 demoWorld (by decide) (by decide)).2.2.1⟩

/-- C7. `PCD_Init` returns `true` exactly when the reset pin is configured
and reads back `LOW`; then the call ends with the reset pin driven `HIGH`
followed by a 50 ms delay.  When the reset pin is unused or reads back `HIGH`
the call returns `false`, makes no delay, and its only pin write is the one
that sets chip-select `HIGH` (so none on the reset pin, the two pins being
distinct).  In every case chip-select is configured as an output and is `HIGH`
at the end. -/
theorem C7_init (env : Env) (UNUSED_PIN : Nat) (d : Device) (s : World) :
    ((PCD_Init env UNUSED_PIN d s).1 = true ↔
      (d._resetPowerDownPin ≠ UNUSED_PIN ∧
        env.pinRead (s.trace ++ [Event.spiBegin,
          Event.pinMode d._chipSelectPin PinMode.OUTPUT,
          Event.digitalWrite d._chipSelectPin Level.HIGH,
          Event.pinMode d._resetPowerDownPin PinMode.OUTPUT]) d._resetPowerDownPin
          = Level.LOW)) ∧
    ((PCD_Init env UNUSED_PIN d s).1 = true →
      callEvents s (PCD_Init env UNUSED_PIN d s).2
        = [Event.spiBegin,
            Event.pinMode d._chipSelectPin PinMode.OUTPUT,
            Event.digitalWrite d._chipSelectPin Level.HIGH,
            Event.pinMode d._resetPowerDownPin PinMode.OUTPUT,
            Event.digitalRead d._resetPowerDownPin Level.LOW,
            Event.digitalWrite d._resetPowerDownPin Level.HIGH,
            Event.delay 50]) ∧
    ((PCD_Init env UNUSED_PIN d s).1 = false →
      (callEvents s (PCD_Init env UNUSED_PIN d s).2
          = [Event.spiBegin,
              Event.pinMode d._chipSelectPin PinMode.OUTPUT,
              Event.digitalWrite d._chipSelectPin Level.HIGH] ∨
        callEvents s (PCD_Init env UNUSED_PIN d s).2
          = [Event.spiBegin,
              Event.pinMode d._chipSelectPin PinMode.OUTPUT,
              Event.digitalWrite d._chipSelectPin Level.HIGH,
              Event.pinMode d._resetPowerDownPin PinMode.OUTPUT,
              Event.digitalRead d._resetPowerDownPin Level.HIGH]) ∧
      (∀ ms, Event.delay ms ∉ callEvents s (PCD_Init env UNUSED_PIN d s).2) ∧
      (∀ p l, Event.digitalWrite p l ∈ callEvents s (PCD_Init env UNUSED_PIN d s).2 →
        p = d._chipSelectPin ∧ l = Level.HIGH) ∧
      (d._chipSelectPin ≠ d._resetPowerDownPin →
        ∀ l, Event.digitalWrite d._resetPowerDownPin l
          ∉ callEvents s (PCD_Init env UNUSED_PIN d s).2)) ∧
    (PCD_Init env UNUSED_PIN d s).2.trace
      = s.trace ++ callEvents s (PCD_Init env UNUSED_PIN d s).2 ∧
    Event.pinMode d._chipSelectPin PinMode.OUTPUT
      ∈ callEvents s (PCD_Init env UNUSED_PIN d s).2 ∧
    (∀ b : BusState, replay d._chipSelectPin b (callEvents s (PCD_Init env UNUSED_PIN d s).2)
      = some { b with cs := Level.HIGH }) ∧
    (PCD_Init env UNUSED_PIN d s).2.mem = s.mem := by
  obtain ⟨hA, hB, hC⟩ := init_effect env UNUSED_PIN d s
  by_cases hu : d._resetPowerDownPin = UNUSED_PIN
  · have h := hA hu
    rw [h]
    simp [callEvents, replay, stepBus, hu]
    intro h1 h2
    exact h1 h2.symm
  · cases hl : env.pinRead (s.trace ++ [Event.spiBegin,
        Event.pinMode d._chipSelectPin PinMode.OUTPUT,
        Event.digitalWrite d._chipSelectPin Level.HIGH,
        Event.pinMode d._resetPowerDownPin PinMode.OUTPUT]) d._resetPowerDownPin with
    | LOW =>
      have h := hB hu hl
      rw [h]
      simp [callEvents, replay, stepBus, hu]
    | HIGH =>
      have h := hC hu hl
      rw [h]
      simp [callEvents, replay, stepBus, hu]
      intro h1 h2
      exact h1 h2.symm

/-- C7 on the example platform (reset on pin 9 reading back `LOW`,
`UNUSED_PIN = 255`): the call returns `true` and ends with the reset pin
driven `HIGH` and a 50 ms delay. -/
theorem C7_init_witness :
    (PCD_Init demoEnv 255 demoDevice demoWorld).1 = true ∧
    callEvents demoWorld (PCD_Init demoEnv 255 demoDevice demoWorld).2
      = [Event.spiBegin, Event.pinMode 10 PinMode.OUTPUT, Event.digitalWrite 10 Level.HIGH,
          Event.pinMode 9 PinMode.OUTPUT, Event.digitalRead 9 Level.LOW,
          Event.digitalWrite 9 Level.HIGH, Event.delay 50] :=
  ⟨(C7_init demoEnv 255 demoDevice demoWorld).1.mpr ⟨by decide, rfl⟩,
    (C7_init demoEnv 255 demoDevice demoWorld).2.1
      ((C7_init demoEnv 255 demoDevice demoWorld).1.mpr ⟨by decide, rfl⟩)⟩

/-- C8. Chip-select discipline, for every argument and every bus.  Started
with chip-select `HIGH` and no open transaction, each of the four register
operations only appends platform calls in which every transfer happens with
chip-select `LOW` inside the call's own transaction, and ends with chip-select
`HIGH` and the transaction closed.  Hence after `PCD_Init` followed by any
finite sequence of register operations every transfer was made under
chip-select `LOW` and chip-select is `HIGH` at the end. -/
theorem C8_chipSelect_discipline (env : Env) (d : Device) :
    (∀ (reg value : Nat) (s : World),
      (PCD_WriteRegister env d reg value s).trace
        = s.trace ++ callEvents s (PCD_WriteRegister env d reg value s) ∧
      replay d._chipSelectPin idle (callEvents s (PCD_WriteRegister env d reg value s))
        = some idle) ∧
    (∀ (reg count values : Nat) (s : World),
      (PCD_WriteRegister_count env d reg count values s).trace
        = s.trace ++ callEvents s (PCD_WriteRegister_count env d reg count values s) ∧
      replay d._chipSelectPin idle
        (callEvents s (PCD_WriteRegister_count env d reg count values s)) = some idle) ∧
    (∀ (reg : Nat) (s : World),
      (PCD_ReadRegister env d reg s).2.trace
        = s.trace ++ callEvents s (PCD_ReadRegister env d reg s).2 ∧
      replay d._chipSelectPin idle (callEvents s (PCD_ReadRegister env d reg s).2)
        = some idle) ∧
    (∀ (reg count values rxAlign : Nat) (s : World),
      (PCD_ReadRegister_count env d reg count values rxAlign s).trace
        = s.trace ++ callEvents s (PCD_ReadRegister_count env d reg count values rxAlign s) ∧
      replay d._chipSelectPin idle
        (callEvents s (PCD_ReadRegister_count env d reg count values rxAlign s)) = some idle) ∧
    (∀ (UNUSED_PIN : Nat) (ops : List Op) (s : World) (l0 : Level),
      (runOps env d ops (PCD_Init env UNUSED_PIN d s).2).trace
        = s.trace ++ callEvents s (runOps env d ops (PCD_Init env UNUSED_PIN d s).2) ∧
      replay d._chipSelectPin { cs := l0, inTransaction := false }
        (callEvents s (runOps env d ops (PCD_Init env UNUSED_PIN d s).2)) = some idle) := by
  refine ⟨?_, ?_, ?_, ?_, ?_⟩
  · intro reg value s
    obtain ⟨evs, ht, hr⟩ := runOp_replay env d (Op.writeRegister reg value) s
    simp only [runOp] at ht
    rw [callEvents_of_append ht]
    exact ⟨ht, hr⟩
  · intro reg count values s
    obtain ⟨evs, ht, hr⟩ := runOp_replay env d (Op.writeRegisterCount reg count values) s
    simp only [runOp] at ht
    rw [callEvents_of_append ht]
    exact ⟨ht, hr⟩
  · intro reg s
    obtain ⟨evs, ht, hr⟩ := runOp_replay env d (Op.readRegister reg) s
    simp only [runOp] at ht
    rw [callEvents_of_append ht]
    exact ⟨ht, hr⟩
  · intro reg count values rxAlign s
    obtain ⟨evs, ht, hr⟩ := runOp_replay env d (Op.readRegisterCount reg count values rxAlign) s
    simp only [runOp] at ht
    rw [callEvents_of_append ht]
    exact ⟨ht, hr⟩
  · intro UNUSED_PIN ops s l0
    obtain ⟨e1, ht1, hr1⟩ := init_replay env UNUSED_PIN d s
    obtain ⟨e2, ht2, hr2⟩ := runOps_replay env d ops (PCD_Init env UNUSED_PIN d s).2
    have ht : (runOps env d ops (PCD_Init env UNUSED_PIN d s).2).trace
        = s.trace ++ (e1 ++ e2) := by
      rw [ht2, ht1, List.append_assoc]
    rw [callEvents_of_append ht]
    refine ⟨ht, ?_⟩
    rw [replay_append, hr1]
    exact hr2

/-- C9 as written fails: reading register 0 transmits the address byte
`0x80`, whose bit 1 is 0 although the operation is a read, and writing
register 1 transmits `0x02`, whose bit 1 is 1 although the operation is a
write. -/
theorem C9_counterexample :
    (payloads (callEvents demoWorld (PCD_ReadRegister demoEnv demoDevice 0 demoWorld).2)).head?
      = some 0x80 ∧
    Nat.testBit 0x80 1 = false ∧
    (payloads (callEvents demoWorld (PCD_WriteRegister demoEnv demoDevice 1 0 demoWorld))).head?
      = some 0x02 ∧
    Nat.testBit 0x02 1 = true := by
  decide

/-- C9, amended. For every register id below 64 the address byte (the first
byte transferred) is `reg << 1` for the two writes and `0x80 | (reg << 1)` for
the two reads; it has bit 0 clear, and its most significant bit, bit 7, gives
the direction: 1 for the two reads, 0 for the two writes.  A block read
transfers that same address byte one or more times and then the dummy `0`. -/
theorem C9_address_bits (env : Env) (d : Device) (reg : Nat) (s : World) (hreg : reg < 64) :
    (∀ value : Nat,
      (payloads (callEvents s (PCD_WriteRegister env d reg value s))).head?
        = some (reg <<< 1)) ∧
    (∀ count values : Nat,
      (payloads (callEvents s (PCD_WriteRegister_count env d reg count values s))).head?
        = some (reg <<< 1)) ∧
    (Nat.testBit (reg <<< 1) 0 = false ∧ Nat.testBit (reg <<< 1) 7 = false) ∧
    (payloads (callEvents s (PCD_ReadRegister env d reg s).2)).head?
      = some (0x80 ||| (reg <<< 1)) ∧
    (∀ count values rxAlign : Nat, count % 256 ≠ 0 →
      (payloads (callEvents s
        (PCD_ReadRegister_count env d reg count values rxAlign s))).head?
        = some (0x80 ||| (reg <<< 1)) ∧
      ∃ n : Nat,
        payloads (callEvents s (PCD_ReadRegister_count env d reg count values rxAlign s))
          = List.replicate (n + 1) (0x80 ||| (reg <<< 1)) ++ [0]) ∧
    (Nat.testBit (0x80 ||| (reg <<< 1)) 0 = false ∧
      Nat.testBit (0x80 ||| (reg <<< 1)) 7 = true) := by
  obtain ⟨-, hwm, -, hw0, hw7⟩ := writeAddress_facts reg hreg
  obtain ⟨hrm, hr0, hr7⟩ := readAddress_facts reg hreg
  rw [hwm] at hw0 hw7
  rw [hrm] at hr0 hr7
  refine ⟨fun value => ?_, fun count values => ?_, ⟨hw0, hw7⟩, ?_,
    fun count values rxAlign hc => ?_, ⟨hr0, hr7⟩⟩
  · obtain ⟨r0, r1, ht, -, -⟩ := writeSingle_effect env d reg value s
    rw [callEvents_of_append ht, hwm]
    simp [payloads, payloadOf, List.filterMap_cons]
  · obtain ⟨rs, hlen, ht, -, -⟩ := writeBlock_effect env d reg count values s
    rw [callEvents_of_append ht, payloads_append, payloads_append,
      payloads_zipWith_transfer _ _ (by simp [hlen]), hwm]
    simp [payloads, payloadOf, List.filterMap_cons]
  · obtain ⟨r0, ht, -, -⟩ := readSingle_effect env d reg s
    rw [callEvents_of_append ht, hrm]
    simp [payloads, payloadOf, List.filterMap_cons]
  · by_cases hr : rxAlign % 256 = 0
    · obtain ⟨hp, -, -⟩ := readBlock_plain_bus env d reg count values rxAlign s hc hr
      rw [hrm] at hp
      obtain ⟨m, hm⟩ : ∃ m, count % 256 = m + 1 := ⟨count % 256 - 1, by omega⟩
      rw [hm] at hp
      refine ⟨?_, m, hp⟩
      rw [hp]
      simp [List.replicate_succ]
    · have hp := readBlock_aligned_payloads env d reg count values rxAlign s hc hr
      rw [hrm] at hp
      refine ⟨?_, count % 256 - 1 - 1 + 1, hp⟩
      rw [hp]
      simp [List.replicate_succ]

/-- C9 (amended) at register 1 on the example platform: the single read
starts with the address byte `0x82`, whose bit 0 is clear and whose bit 7 is
set. -/
theorem C9_address_bits_witness :
    1 < 64 ∧
    (payloads (callEvents demoWorld (PCD_ReadRegister demoEnv demoDevice 1 demoWorld).2)).head?
      = some 0x82 ∧
    (Nat.testBit 0x82 0 = false ∧ Nat.testBit 0x82 7 = true) :=
  ⟨by decide, (C9_address_bits demoEnv demoDevice 1 demoWorld (by decide)).2.2.2.1,
    (C9_address_bits demoEnv demoDevice 1 demoWorld (by decide)).2.2.2.2.2⟩

/-- C10 as written fails: on the example platform the single read of register
`0x01` transfers `0x82, 0x00`, not `0x81, 0x00`, and the block read of register
`0x09` with `count = 3`, `rxAlign = 0` transfers `0x92, 0x92, 0x92, 0x00`, not
`0x93, 0x93, 0x93, 0x00`. -/
theorem C10_counterexample :
    payloads (callEvents demoWorld (PCD_ReadRegister demoEnv demoDevice 0x01 demoWorld).2)
      = [0x82, 0x00] ∧
    payloads (callEvents demoWorld (PCD_ReadRegister demoEnv demoDevice 0x01 demoWorld).2)
      ≠ [0x81, 0x00] ∧
    payloads (callEvents demoWorld
        (PCD_ReadRegister_count demoEnv demoDevice 0x09 3 100 0 demoWorld))
      = [0x92, 0x92, 0x92, 0x00] ∧
    payloads (callEvents demoWorld
        (PCD_ReadRegister_count demoEnv demoDevice 0x09 3 100 0 demoWorld))
      ≠ [0x93, 0x93, 0x93, 0x00] := by
  have h := (readBlock_plain_bus demoEnv demoDevice 0x09 3 100 0 demoWorld
    (by decide) (by decide)).1
  refine ⟨by decide, by decide, h, ?_⟩
  rw [h]
  decide

/-- C10, amended. On every platform: a single read of register `0x01` makes
exactly the transfers `0x82, 0x00` and returns what the bus `env` returned for
the second one; a block read of register `0x09` with `count = 3` and
`rxAlign = 0` makes exactly the transfers `0x92, 0x92, 0x92, 0x00`, and
`values[0..2]` hold the bytes `env` returned for transfers 1..3. -/
theorem C10_read_scenario (env : Env) (d : Device) (values : Nat) (s : World) :
    payloads (callEvents s (PCD_ReadRegister env d 0x01 s).2) = [0x82, 0x00] ∧
    callEvents s (PCD_ReadRegister env d 0x01 s).2
      = [Event.beginTransaction d._spiSettings,
          Event.digitalWrite d._chipSelectPin Level.LOW]
        ++ exchange env (s.trace ++ [Event.beginTransaction d._spiSettings,
            Event.digitalWrite d._chipSelectPin Level.LOW]) [0x82, 0x00]
        ++ [Event.digitalWrite d._chipSelectPin Level.HIGH, Event.endTransaction] ∧
    (PCD_ReadRegister env d 0x01 s).1
      = env.spiTransfer (s.trace ++ [Event.beginTransaction d._spiSettings,
          Event.digitalWrite d._chipSelectPin Level.LOW,
          Event.transfer 0x82
            (env.spiTransfer (s.trace ++ [Event.beginTransaction d._spiSettings,
              Event.digitalWrite d._chipSelectPin Level.LOW]) 0x82 % 256)]) 0 % 256 ∧
    (responses (callEvents s (PCD_ReadRegister env d 0x01 s).2)).length = 2 ∧
    (responses (callEvents s (PCD_ReadRegister env d 0x01 s).2))[1]?
      = some (PCD_ReadRegister env d 0x01 s).1 ∧
    payloads (callEvents s (PCD_ReadRegister_count env d 0x09 3 values 0 s))
      = [0x92, 0x92, 0x92, 0x00] ∧
    callEvents s (PCD_ReadRegister_count env d 0x09 3 values 0 s)
      = [Event.beginTransaction d._spiSettings,
          Event.digitalWrite d._chipSelectPin Level.LOW]
        ++ exchange env (s.trace ++ [Event.beginTransaction d._spiSettings,
            Event.digitalWrite d._chipSelectPin Level.LOW]) [0x92, 0x92, 0x92, 0x00]
        ++ [Event.digitalWrite d._chipSelectPin Level.HIGH, Event.endTransaction] ∧
    (∀ i, i < 3 →
      (PCD_ReadRegister_count env d 0x09 3 values 0 s).mem (values + i)
        = env.spiTransfer
            (s.trace ++ (callEvents s
              (PCD_ReadRegister_count env d 0x09 3 values 0 s)).take (i + 3))
            (if i + 1 < 3 then 0x92 else 0) % 256) ∧
    (responses (callEvents s (PCD_ReadRegister_count env d 0x09 3 values 0 s))).length = 4 ∧
    ∀ i, i < 3 →
      (responses (callEvents s (PCD_ReadRegister_count env d 0x09 3 values 0 s)))[i + 1]?
        = some ((PCD_ReadRegister_count env d 0x09 3 values 0 s).mem (values + i)) := by
  obtain ⟨ht, hres⟩ := readSingle_pinned env d 0x01 s
  have hev := callEvents_of_append ht
  obtain ⟨hp, hl, hresp⟩ := readBlock_plain_bus env d 0x09 3 values 0 s (by decide) (by decide)
  obtain ⟨hex, hpin⟩ := readBlock_plain_pinned env d 0x09 3 values 0 s (by decide) (by decide)
  refine ⟨?_, hev, hres, ?_, ?_, hp, hex, hpin, hl, hresp⟩
  · rw [hev]; simp [payloads, payloadOf, List.filterMap_cons, exchange]
  · rw [hev]; simp [responses, responseOf, List.filterMap_cons, exchange]
  · rw [hev, hres]; simp [responses, responseOf, List.filterMap_cons, exchange]

/-- C10 (amended) on the example platform with the buffer at address 100. -/
theorem C10_read_scenario_witness :
    payloads (callEvents demoWorld
        (PCD_ReadRegister_count demoEnv demoDevice 0x09 3 100 0 demoWorld))
      = [0x92, 0x92, 0x92, 0x00] ∧
    (PCD_ReadRegister demoEnv demoDevice 0x01 demoWorld).1 = 0x31 ∧
    (PCD_ReadRegister_count demoEnv demoDevice 0x09 3 100 0 demoWorld).mem (100 + 0)
      = demoEnv.spiTransfer
          (demoWorld.trace ++ (callEvents demoWorld
            (PCD_ReadRegister_count demoEnv demoDevice 0x09 3 100 0 demoWorld)).take (0 + 3))
          0x92 % 256 :=
  ⟨(C10_read_scenario demoEnv demoDevice 100 demoWorld).2.2.2.2.2.1,
    (C10_read_scenario demoEnv demoDevice 100 demoWorld).2.2.1,
    (C10_read_scenario demoEnv demoDevice 100 demoWorld).2.2.2.2.2.2.2.1 0 (by decide)⟩

/-- C8 on the example platform: after initialisation, a one-byte aligned
block read and a single write, started with chip-select `LOW`, the bus is
idle. -/
theorem C8_chipSelect_discipline_witness :
    replay demoDevice._chipSelectPin { cs := Level.LOW, inTransaction := false }
      (callEvents demoWorld
        (runOps demoEnv demoDevice [Op.readRegisterCount 9 1 100 1, Op.writeRegister 1 2]
          (PCD_Init demoEnv 255 demoDevice demoWorld).2)) = some idle :=
  ((C8_chipSelect_discipline demoEnv demoDevice).2.2.2.2 255
    [Op.readRegisterCount 9 1 100 1, Op.writeRegister 1 2] demoWorld Level.LOW).2

end MFRC522_SPI
